import Mathlib

/-!
Verification of the training-loop engine of `src/python/optimize.py`.

Shallow embedding conventions:
* Python floats are modelled as rationals (`ℚ`); the value `float('inf')`
  that the code uses as a sentinel is modelled by the two-constructor type
  `PyFloat` (a finite rational or positive infinity).
* Fallible Python code (raised exceptions such as `AssertionError` on a
  malformed batch or `ZeroDivisionError`) is modelled with
  `Except String`.
* Tensors appear in two roles.  In the loss function `WeightedMSELoss`
  a tensor is a one-dimensional list of rationals.  In the training loop
  only the leading dimension of each tensor is ever consulted
  (`input_vars[0].size()[0]`), so there a batch is the list of the leading
  dimensions of its tensors.
* The results of the opaque neural-network computations (the loss value
  `loss_value.data[0]` produced for a given epoch / batch / net) and of
  `random.uniform(0.0, 1.0)` and `time.time()` are supplied as oracle
  functions in `TrainConfig`; everything the loop itself computes from
  them is embedded faithfully.
-/

/-- A Python float that is either a finite value or `float('inf')`.
(NaN and negative infinity never arise in the embedded code paths.) -/
inductive PyFloat where
  | fin (q : ℚ)
  | inf
deriving DecidableEq, Repr

/-- Python `<` on our float model: `fin a < fin b ↔ a < b`,
every finite value is `< inf`, and `inf < inf` is `False`
(as in Python, where `float('inf') < float('inf')` is `False`). -/
def PyFloat.lt : PyFloat → PyFloat → Bool
  | .fin a, .fin b => a < b
  | .fin _, .inf => true
  | .inf, _ => false

/-- Python `<=` on our float model. -/
def PyFloat.le : PyFloat → PyFloat → Bool
  | .fin a, .fin b => a ≤ b
  | .fin _, .inf => true
  | .inf, .fin _ => false
  | .inf, .inf => true

/-- Python division `x / y` on floats: raises `ZeroDivisionError` when the
denominator is zero, otherwise returns the quotient. -/
def pyDiv (x y : ℚ) : Except String ℚ :=
  if y = 0 then .error ("ZeroDivisionError") else .ok (x / y)

/-- The function `AverageLosses` (optimize.py lines 59-62):
`[x / y if y > 0 else float('inf') for x, y in zip(total_losses, total_examples)]`.
Note that Python's `zip` silently truncates to the shorter list. -/
def AverageLosses (total_losses : List ℚ) (total_examples : List ℕ) :
    List PyFloat :=
  (total_losses.zip total_examples).map
    (fun p => if 0 < p.2 then .fin (p.1 / (p.2 : ℚ)) else .inf)

/-- The pooled average computed inline at optimize.py line 119
(`sum(running_losses) / sum(train_examples_per_net)`) and lines 145-146
(`sum(validation_total_losses) / sum(validation_examples)`); the spec
names this computation `PooledAverage`.  A plain Python division: it
raises `ZeroDivisionError` when the summed example count is zero. -/
def PooledAverage (total_losses : List ℚ) (total_examples : List ℕ) :
    Except String ℚ :=
  pyDiv total_losses.sum (total_examples.sum : ℚ)

/-- Python `xs[0]`: raises `IndexError` on an empty sequence. -/
def headE {α : Type} (l : List α) : Except String α :=
  match l with
  | [] => .error ("IndexError")
  | a :: _ => .ok a

/-- The function `DataBatchToVariables` (optimize.py lines 64-70), the spec's
`SplitBatch`.  The `assert len(batch) == num_inputs + num_labels + 1`
(line 65) is the spec's `MalformedBatch` condition; on success the batch
is sliced positionally (`batch[:num_inputs]`,
`batch[num_inputs:(num_inputs + num_labels)]`, `batch[-1]`).
The `.cuda()` device transfers are side effects with no effect on the
values and are not modelled (`DeviceTransferFailure` is out of scope). -/
def DataBatchToVariables {α : Type} (batch : List α)
    (num_inputs num_labels : ℕ) :
    Except String (List α × List α × α) :=
  if h : batch.length = num_inputs + num_labels + 1 then
    .ok (batch.take num_inputs,
         (batch.drop num_inputs).take num_labels,
         batch.getLast (by
           intro hnil
           rw [hnil] at h
           simp at h))
  else .error ("MalformedBatch")

/-- Models `torch.add` on same-shape 1-D tensors (the only shape combination the
embedded claims exercise); incompatible shapes fail with the spec's
`ShapeMismatch`. -/
def tensorAdd (a b : List ℚ) : Except String (List ℚ) :=
  if a.length = b.length then .ok (List.zipWith (· + ·) a b)
  else .error ("ShapeMismatch")

/-- Models `torch.mul` on same-shape 1-D tensors. -/
def tensorMul (a b : List ℚ) : Except String (List ℚ) :=
  if a.length = b.length then .ok (List.zipWith (· * ·) a b)
  else .error ("ShapeMismatch")

/-- Models `torch.mean` of a 1-D tensor: the sum divided by the element count.
`torch.mean` of an empty tensor is NaN, which is not representable in our
rational model, so the empty case is modelled as an error value; no
embedded claim exercises it. -/
def tensorMean (a : List ℚ) : Except String ℚ :=
  if a.length = 0 then .error ("EmptyTensor")
  else .ok (a.sum / (a.length : ℚ))

/-- Models `weights.expand_as(labels)` for 1-D tensors: a same-length tensor
expands to itself, a singleton broadcasts to the label length, anything
else fails (`ShapeMismatch`). -/
def expandAs (weights labels : List ℚ) : Except String (List ℚ) :=
  if weights.length = labels.length then .ok weights
  else if weights.length = 1 then
    .ok (List.replicate labels.length (weights.headD 0))
  else .error ("ShapeMismatch")

/-- The method `WeightedMSELoss.forward` (optimize.py lines 48-50):
`diff_squares = torch.pow(torch.add(predicted, torch.neg(labels)), 2.0)`
then `torch.mean(torch.mul(diff_squares, weights.expand_as(labels)))`,
for 1-D tensors. -/
def WeightedMSELoss.forward (predicted labels weights : List ℚ) :
    Except String ℚ := do
  let diffs ← tensorAdd predicted (labels.map Neg.neg)
  let diff_squares := diffs.map (fun d => d ^ 2)
  let w ← expandAs weights labels
  let weighted ← tensorMul diff_squares w
  tensorMean weighted

/-- One model of the model set: only its `input_names()` and
`label_names()` lists are observable to the training loop (the learnable
parameters and the forward computation are opaque; their numeric outcome
is supplied by the loss oracles in `TrainConfig`). -/
structure Net where
  input_names : List String
  label_names : List String
deriving DecidableEq, Repr

/-- The `TrainSettings` namedtuple (optimize.py lines 16-17) restricted to
the field the loop's control flow reads, `epochs`.  The `loss` and
`optimizer` members are opaque callables; the loss values they produce
are supplied by the oracles in `TrainConfig`, and `optimizer.step()` /
`zero_grad()` calls are counted by the `grad_steps` instrumentation. -/
structure TrainSettings where
  epochs : ℕ
deriving DecidableEq, Repr

/-- All inputs of one `TrainModels` invocation.  A batch is the list of
the leading dimensions of its tensors (the only attribute the loop
reads, via `input_vars[0].size()[0]`).  `trainLossVal e j i` is the value
`loss_value.data[0]` produced for epoch `e`, training batch `j`, net `i`
(and `valLossVal` likewise for validation batches); `rand e j i` is the
value of `random.uniform(0.0, 1.0)` drawn at line 101 for that triple;
`epochDuration e` is the wall-clock duration measured for epoch `e`
(lines 95, 114, 116).  `pathStem` is the `out_prefix` argument. -/
structure TrainConfig where
  nets : List Net
  train_settings : List TrainSettings
  train_loader : List (List ℕ)
  val_loader : List (List ℕ)
  trainLossVal : ℕ → ℕ → ℕ → ℚ
  valLossVal : ℕ → ℕ → ℕ → ℚ
  rand : ℕ → ℕ → ℕ → ℚ
  batch_use_prob : ℚ
  epochDuration : ℕ → ℚ
  pathStem : String

/-- Per-epoch training accumulators (optimize.py lines 90-91), plus
`grad_steps`, an instrumentation counter of `optimizer.step()` calls per
net (one per consumed batch, line 107). -/
structure Accum where
  running_losses : List ℚ
  train_examples_per_net : List ℕ
  grad_steps : List ℕ
deriving DecidableEq, Repr

/-- The body of the `if random.uniform(0.0, 1.0) < batch_use_prob` branch
(optimize.py lines 102-113) for net `i` on training batch `j` of epoch
`e` with `batch_size = bs`: one optimizer step, `batch_size` more
examples, and `loss_value.data[0] * batch_size` more running loss. -/
def consumeNet (cfg : TrainConfig) (e j bs i : ℕ) (acc : Accum) : Accum :=
  { running_losses := acc.running_losses.set i
      (acc.running_losses.getD i 0 + cfg.trainLossVal e j i * (bs : ℚ)),
    train_examples_per_net := acc.train_examples_per_net.set i
      (acc.train_examples_per_net.getD i 0 + bs),
    grad_steps := acc.grad_steps.set i (acc.grad_steps.getD i 0 + 1) }

/-- One training batch (optimize.py lines 96-113): split the batch, then
for each net in index order draw the uniform sample; when it is below
`batch_use_prob` the net consumes the batch (`batch_size` is
`input_vars[0].size()[0]`, raising `IndexError` when there are no input
tensors), otherwise the net is skipped entirely. -/
def processTrainBatch (cfg : TrainConfig) (ni nl e j : ℕ)
    (batch : List ℕ) (acc : Accum) : Except String Accum := do
  let (input_vars, _label_vars, _weights_var) ←
    DataBatchToVariables batch ni nl
  (List.range cfg.nets.length).foldlM
    (fun a i =>
      if cfg.rand e j i < cfg.batch_use_prob then do
        let batch_size ← headE input_vars
        pure (consumeNet cfg e j batch_size i a)
      else pure a)
    acc

/-- The training phase of one epoch (optimize.py lines 90-113): fresh
zero accumulators, then one pass over the training loader. -/
def trainPhase (cfg : TrainConfig) (ni nl e : ℕ) : Except String Accum :=
  cfg.train_loader.enum.foldlM
    (fun acc p => processTrainBatch cfg ni nl e p.1 p.2 acc)
    ⟨List.replicate cfg.nets.length 0, List.replicate cfg.nets.length 0,
     List.replicate cfg.nets.length 0⟩

/-- Mode-switch and evaluation events, used to state the ordering of the
validation pass relative to the `net.eval()` / `net.train()` switches. -/
inductive TraceEvent where
  | setEval (netIdx : ℕ)
  | setTrain (netIdx : ℕ)
  | valEval (netIdx : ℕ) (batchIdx : ℕ)
deriving DecidableEq, Repr

/-- Per-epoch validation accumulators (optimize.py lines 121-122) plus
the trace of evaluation events. -/
structure ValAccum where
  validation_total_losses : List ℚ
  validation_examples : List ℕ
  trace : List TraceEvent
deriving DecidableEq, Repr

/-- The body of the inner validation loop (optimize.py lines 131-138)
for net `i` on validation batch `j` of epoch `e`: forward pass and loss
(their value is the oracle `valLossVal e j i`), then accumulate
`batch_size` examples and `loss * batch_size` loss.  No sub-sampling. -/
def evalNet (cfg : TrainConfig) (e j bs i : ℕ) (acc : ValAccum) : ValAccum :=
  { validation_total_losses := acc.validation_total_losses.set i
      (acc.validation_total_losses.getD i 0 + cfg.valLossVal e j i * (bs : ℚ)),
    validation_examples := acc.validation_examples.set i
      (acc.validation_examples.getD i 0 + bs),
    trace := acc.trace ++ [.valEval i j] }

/-- One validation batch (optimize.py lines 127-138): split the batch,
then every net evaluates it in index order. -/
def processValBatch (cfg : TrainConfig) (ni nl e j : ℕ)
    (batch : List ℕ) (acc : ValAccum) : Except String ValAccum := do
  let (input_vars, _label_vars, _weights_var) ←
    DataBatchToVariables batch ni nl
  (List.range cfg.nets.length).foldlM
    (fun a i => do
      let batch_size ← headE input_vars
      pure (evalNet cfg e j batch_size i a))
    acc

/-- The validation phase of one epoch (optimize.py lines 121-138): fresh
zero accumulators, then one full pass over the validation loader. -/
def valPhase (cfg : TrainConfig) (ni nl e : ℕ) : Except String ValAccum :=
  cfg.val_loader.enum.foldlM
    (fun acc p => processValBatch cfg ni nl e p.1 p.2 acc)
    ⟨List.replicate cfg.nets.length 0, List.replicate cfg.nets.length 0, []⟩

/-- The event trace of lines 124-141: every net switched to evaluation
mode, then the validation pass, then every net switched back to train
mode. -/
def epochValTrace (cfg : TrainConfig) (ni nl e : ℕ) :
    Except String (List TraceEvent) := do
  let v ← valPhase cfg ni nl e
  pure ((List.range cfg.nets.length).map .setEval ++ v.trace ++
        (List.range cfg.nets.length).map .setTrain)

/-- One entry of the training log (optimize.py lines 148-153). -/
structure EpochMetrics where
  train_loss : ℚ
  val_loss : ℚ
  epoch_duration_sec : ℚ
  examples_per_sec : ℚ
deriving DecidableEq, Repr

/-- Which checkpoint a `torch.save` call writes. -/
inductive CkptKind where
  | best
  | last
deriving DecidableEq, Repr

/-- One `torch.save` call: the net it saves and which checkpoint. -/
structure SaveEvent where
  netIdx : ℕ
  kind : CkptKind
deriving DecidableEq, Repr

/-- The file path a save event writes to:
`out_prefix + '-' + str(net_idx) + '-best.pth'` (line 165) or
`out_prefix + '-' + str(net_id) + '-last.pth'` (line 180). -/
def savePath (stem : String) (ev : SaveEvent) : String :=
  stem ++ "-" ++ toString ev.netIdx ++
    (match ev.kind with
     | .best => "-best.pth"
     | .last => "-last.pth")

/-- The state threaded through the epoch loop: the per-net checkpoint
minima (line 85), the pooled minimum used for the log marker (line 86),
the training log (line 84), and the ordered list of `torch.save` calls
performed so far (instrumentation of lines 164-165 and 180). -/
structure RunState where
  min_validation_losses : List PyFloat
  min_validation_loss : PyFloat
  train_log : List EpochMetrics
  saves : List SaveEvent
deriving DecidableEq, Repr

/-- The state before the first epoch (optimize.py lines 84-86). -/
def initialRunState (cfg : TrainConfig) : RunState :=
  ⟨List.replicate cfg.nets.length .inf, .inf, [], []⟩

/-- One epoch of `TrainModels` (optimize.py lines 89-176): the training
phase, `examples_per_sec` (line 117, a plain division by the wall-clock
duration), the unused per-net training averages (line 118), the pooled
training average (line 119, raises on a zero example count), the
validation phase, the pooled validation average (lines 145-146), the log
entry (lines 148-154), the pooled-minimum marker update (lines 156-159),
and the per-net best-checkpoint loop (lines 161-167).  The print and
tensorboard hooks (lines 170-176) have no effect on the state and are
not modelled. -/
def runEpoch (cfg : TrainConfig) (ni nl e : ℕ) (st : RunState) :
    Except String RunState := do
  let acc ← trainPhase cfg ni nl e
  let epoch_duration := cfg.epochDuration e
  let examples_per_sec ←
    pyDiv (acc.train_examples_per_net.sum : ℚ) epoch_duration
  let _avg_losses := AverageLosses acc.running_losses acc.train_examples_per_net
  let avg_loss ← PooledAverage acc.running_losses acc.train_examples_per_net
  let v ← valPhase cfg ni nl e
  let validation_avg_losses :=
    AverageLosses v.validation_total_losses v.validation_examples
  let validation_avg_loss ←
    PooledAverage v.validation_total_losses v.validation_examples
  let epoch_metrics : EpochMetrics :=
    ⟨avg_loss, validation_avg_loss, epoch_duration, examples_per_sec⟩
  let min_validation_loss :=
    if (PyFloat.fin validation_avg_loss).lt st.min_validation_loss then
      PyFloat.fin validation_avg_loss
    else st.min_validation_loss
  let best_saves := (List.range cfg.nets.length).filterMap fun i =>
    if (validation_avg_losses.getD i .inf).lt
        (st.min_validation_losses.getD i .inf) then
      some ⟨i, CkptKind.best⟩
    else none
  let new_mins := (List.range cfg.nets.length).map fun i =>
    if (validation_avg_losses.getD i .inf).lt
        (st.min_validation_losses.getD i .inf) then
      validation_avg_losses.getD i .inf
    else st.min_validation_losses.getD i .inf
  pure { min_validation_losses := new_mins,
         min_validation_loss := min_validation_loss,
         train_log := st.train_log ++ [epoch_metrics],
         saves := st.saves ++ best_saves }

/-- The state update an epoch performs once all of its divisions have
succeeded (optimize.py lines 148-167), written out as a function of the
validation accumulator and the already-computed scalar metrics. -/
def epochUpdate (cfg : TrainConfig) (st : RunState) (v : ValAccum)
    (avg_loss validation_avg_loss epoch_duration examples_per_sec : ℚ) :
    RunState :=
  { min_validation_losses := (List.range cfg.nets.length).map fun i =>
      if ((AverageLosses v.validation_total_losses
            v.validation_examples).getD i .inf).lt
          (st.min_validation_losses.getD i .inf) then
        (AverageLosses v.validation_total_losses
          v.validation_examples).getD i .inf
      else st.min_validation_losses.getD i .inf,
    min_validation_loss :=
      if (PyFloat.fin validation_avg_loss).lt st.min_validation_loss then
        PyFloat.fin validation_avg_loss
      else st.min_validation_loss,
    train_log := st.train_log ++
      [⟨avg_loss, validation_avg_loss, epoch_duration, examples_per_sec⟩],
    saves := st.saves ++ (List.range cfg.nets.length).filterMap fun i =>
      if ((AverageLosses v.validation_total_losses
            v.validation_examples).getD i .inf).lt
          (st.min_validation_losses.getD i .inf) then
        some ⟨i, CkptKind.best⟩
      else none }

/-- The metrics record epoch `e` contributes to the training log, as a
standalone computation (the same values `runEpoch` appends). -/
def epochMetricsOf (cfg : TrainConfig) (ni nl e : ℕ) :
    Except String EpochMetrics := do
  let acc ← trainPhase cfg ni nl e
  let examples_per_sec ←
    pyDiv (acc.train_examples_per_net.sum : ℚ) (cfg.epochDuration e)
  let avg_loss ← PooledAverage acc.running_losses acc.train_examples_per_net
  let v ← valPhase cfg ni nl e
  let validation_avg_loss ←
    PooledAverage v.validation_total_losses v.validation_examples
  pure ⟨avg_loss, validation_avg_loss, cfg.epochDuration e, examples_per_sec⟩

/-- The function `TrainModels` (optimize.py lines 72-183), instrumented: `nets[0]`
supplies `num_inputs` / `num_labels` (lines 87-88), `train_settings[0]`
supplies the epoch count (line 89), the epoch loop threads `RunState`,
and after the last epoch one `last` checkpoint is saved per net
(lines 178-181; the surrounding `net.cpu()` / `net.cuda()` transfers carry
no observable state).  Returns the final state; the Python function
returns its `train_log` component (line 183). -/
def TrainModelsRun (cfg : TrainConfig) : Except String RunState := do
  let net0 ← headE cfg.nets
  let settings0 ← headE cfg.train_settings
  let ni := net0.input_names.length
  let nl := net0.label_names.length
  let final ← (List.range settings0.epochs).foldlM
      (fun st e => runEpoch cfg ni nl e st) (initialRunState cfg)
  pure { final with
         saves := final.saves ++
           (List.range cfg.nets.length).map (fun i => ⟨i, CkptKind.last⟩) }

/-- The value `TrainModels` returns (optimize.py line 183). -/
def TrainModels (cfg : TrainConfig) : Except String (List EpochMetrics) := do
  let r ← TrainModelsRun cfg
  pure r.train_log

/-- Proof-side form of the inner training loop step for one net: the
`if`-guarded consumption, with the batch size already extracted. -/
def netStepT (cfg : TrainConfig) (e j bs : ℕ) (a : Accum) (i : ℕ) : Accum :=
  if cfg.rand e j i < cfg.batch_use_prob then consumeNet cfg e j bs i a else a

/-- Proof-side form of one training batch (index `p.1`, tensor sizes
`p.2`): every net takes its guarded step in index order. -/
def batchStepT (cfg : TrainConfig) (e : ℕ) (acc : Accum) (p : ℕ × List ℕ) :
    Accum :=
  (List.range cfg.nets.length).foldl (netStepT cfg e p.1 (p.2.headD 0)) acc

/-- Proof-side form of one validation batch: every net evaluates it in
index order. -/
def batchStepV (cfg : TrainConfig) (e : ℕ) (acc : ValAccum)
    (p : ℕ × List ℕ) : ValAccum :=
  (List.range cfg.nets.length).foldl
    (fun a i => evalNet cfg e p.1 (p.2.headD 0) i a) acc

/-- The number of examples a data source holds: the sum over its batches
of the leading dimension of the first tensor (the quantity the loop adds
to the accumulators as `batch_size`). -/
def totalExamples (loader : List (List ℕ)) : ℕ :=
  (loader.map (fun b => b.headD 0)).sum

/-- The training examples net `i` accumulates in epoch `e` over the
enumerated batch list `L`: the sizes of the batches whose uniform sample
fell below `batch_use_prob`. -/
def consumedExamples (cfg : TrainConfig) (e i : ℕ)
    (L : List (ℕ × List ℕ)) : ℕ :=
  ((L.filter
      (fun p => decide (cfg.rand e p.1 i < cfg.batch_use_prob))).map
    (fun p => p.2.headD 0)).sum

/-- The training loss net `i` accumulates in epoch `e` over the
enumerated batch list `L`. -/
def consumedLoss (cfg : TrainConfig) (e i : ℕ)
    (L : List (ℕ × List ℕ)) : ℚ :=
  ((L.filter
      (fun p => decide (cfg.rand e p.1 i < cfg.batch_use_prob))).map
    (fun p => cfg.trainLossVal e p.1 i * ((p.2.headD 0 : ℕ) : ℚ))).sum

/-- The number of gradient steps net `i` takes in epoch `e` over the
enumerated batch list `L`. -/
def consumedSteps (cfg : TrainConfig) (e i : ℕ)
    (L : List (ℕ × List ℕ)) : ℕ :=
  (L.filter
    (fun p => decide (cfg.rand e p.1 i < cfg.batch_use_prob))).length

/-- The validation loss net `i` accumulates in epoch `e` over the
enumerated batch list `L` (every batch, no sub-sampling). -/
def valLossTotal (cfg : TrainConfig) (e i : ℕ)
    (L : List (ℕ × List ℕ)) : ℚ :=
  (L.map (fun p => cfg.valLossVal e p.1 i * ((p.2.headD 0 : ℕ) : ℚ))).sum

/-- The examples every net accumulates in the validation phase over the
enumerated batch list `L` (every batch, no sub-sampling). -/
def valExamplesOf (L : List (ℕ × List ℕ)) : ℕ :=
  (L.map (fun p => p.2.headD 0)).sum

/-- Whether a trace event mentions net `i`. -/
def concernsNet (i : ℕ) : TraceEvent → Bool
  | .setEval k => k == i
  | .setTrain k => k == i
  | .valEval k _ => k == i

/-- A one-net example model (one input tensor, one label tensor). -/
def exNet : Net := ⟨["img"], ["angle"]⟩

/-- A concrete one-net, one-epoch configuration: one training batch of
size 4 and one validation batch of size 2, every loss value 1, every
uniform sample 0, full participation, wall-clock duration 1. -/
def exCfg : TrainConfig :=
  { nets := [exNet],
    train_settings := [⟨1⟩],
    train_loader := [[4, 4, 4]],
    val_loader := [[2, 2, 2]],
    trainLossVal := fun _ _ _ => 1,
    valLossVal := fun _ _ _ => 1,
    rand := fun _ _ _ => 0,
    batch_use_prob := 1,
    epochDuration := fun _ => 1,
    pathStem := "m" }

/-- The same configuration with `batch_use_prob = 0`: no net ever
consumes a training batch. -/
def exCfg0 : TrainConfig := { exCfg with batch_use_prob := 0 }

instance {ε α : Type} [DecidableEq ε] [DecidableEq α] :
    DecidableEq (Except ε α) := fun a b =>
  match a, b with
  | .ok x, .ok y =>
      if h : x = y then .isTrue (by rw [h]) else .isFalse (by simp [h])
  | .error x, .error y =>
      if h : x = y then .isTrue (by rw [h]) else .isFalse (by simp [h])
  | .ok _, .error _ => .isFalse (by simp)
  | .error _, .ok _ => .isFalse (by simp)

example : AverageLosses [10] [5] = [.fin 2] := by
  norm_num [AverageLosses]
example : AverageLosses [10] [0] = [.inf] := by
  norm_num [AverageLosses]
example : PooledAverage [10] [0] = .error ("ZeroDivisionError") := by
  norm_num [PooledAverage, pyDiv]
example : WeightedMSELoss.forward [1, 2] [0, 2] [2, 1] = .ok 1 := by
  norm_num [WeightedMSELoss.forward, tensorAdd, tensorMul, tensorMean,
    expandAs, Bind.bind, Except.bind]
example : DataBatchToVariables [1, 2, 3] 1 1 = .ok ([1], [2], 3) := by
  rfl

/-! ### Generic fold lemmas -/

/-- A monadic fold in `Except` whose every step succeeds computes the
corresponding pure fold (with an invariant `P` carried through). -/
theorem foldlM_eq_ok_foldl {α β : Type} (P : β → Prop)
    (f : β → α → Except String β) (g : β → α → β) :
    ∀ (L : List α),
      (∀ b a, a ∈ L → P b → f b a = .ok (g b a)) →
      (∀ b a, a ∈ L → P b → P (g b a)) →
      ∀ b, P b → L.foldlM f b = .ok (L.foldl g b) := by
  intro L
  induction L with
  | nil => intro _ _ b _; rfl
  | cons a L ih =>
      intro hstep hpres b hb
      rw [List.foldlM_cons, hstep b a (by simp) hb]
      show (pure (g b a) >>= fun x => L.foldlM f x) = _
      rw [pure_bind]
      exact ih (fun b' a' ha' hb' => hstep b' a' (by simp [ha']) hb')
        (fun b' a' ha' hb' => hpres b' a' (by simp [ha']) hb')
        (g b a) (hpres b a (by simp) hb)

/-- A successful monadic fold in `Except` preserves any invariant its
steps preserve. -/
theorem foldlM_ok_preserves {α β : Type} (P : β → Prop)
    (f : β → α → Except String β) :
    ∀ (L : List α),
      (∀ b a b', a ∈ L → f b a = .ok b' → P b → P b') →
      ∀ b b', P b → L.foldlM f b = .ok b' → P b' := by
  intro L
  induction L with
  | nil =>
      intro _ b b' hb h
      have hbb : b = b' := Except.ok.inj h
      exact hbb ▸ hb
  | cons a L ih =>
      intro hstep b b' hb h
      rw [List.foldlM_cons] at h
      cases hfa : f b a with
      | error s =>
          rw [hfa] at h
          simp [Bind.bind, Except.bind] at h
      | ok b₁ =>
          rw [hfa] at h
          rw [show ((Except.ok b₁ >>= fun x => L.foldlM f x) =
                L.foldlM f b₁) from rfl] at h
          exact ih (fun bb aa bb' haa hf hP => hstep bb aa bb' (by simp [haa]) hf hP)
            b₁ b' (hstep b a b₁ (by simp) hfa hb) h

/-- Folding an append of one element to the trace. -/
theorem foldl_append_map {β : Type} (h : ℕ → β) :
    ∀ (L : List ℕ) (t : List β),
      L.foldl (fun tr i => tr ++ [h i]) t = t ++ L.map h := by
  intro L
  induction L with
  | nil => intro t; simp
  | cons a L ih => intro t; simp [ih, List.append_assoc]

/-- A fold whose step ignores the element is the identity. -/
theorem foldl_const {α β : Type} :
    ∀ (L : List β) (b : α), L.foldl (fun a _ => a) b = b := by
  intro L
  induction L with
  | nil => intro b; rfl
  | cons a L ih => intro b; exact ih b

/-- Characterization of a fold over a duplicate-free index list where
step `i` conditionally rewrites position `i` from its current value:
lengths are preserved and position `i` is rewritten exactly when `i` is
listed and its guard holds. -/
theorem foldl_update_getElem {α : Type} (c : ℕ → Bool) (g : ℕ → α → α)
    (d : α) :
    ∀ (L : List ℕ), L.Nodup →
      ∀ (l : List α),
        ((L.foldl (fun a i => if c i then a.set i (g i (a.getD i d)) else a)
            l).length = l.length) ∧
        (∀ i, (L.foldl
            (fun a i => if c i then a.set i (g i (a.getD i d)) else a)
            l)[i]? =
          if i ∈ L ∧ c i = true then l[i]?.map (g i) else l[i]?) := by
  intro L
  induction L with
  | nil => intro _ l; simp
  | cons a L ih =>
      intro hnd l
      have hndL : L.Nodup := (List.nodup_cons.mp hnd).2
      have haL : a ∉ L := (List.nodup_cons.mp hnd).1
      have step : ∀ (l' : List α),
          (a :: L).foldl
              (fun a i => if c i then a.set i (g i (a.getD i d)) else a) l' =
            L.foldl (fun a i => if c i then a.set i (g i (a.getD i d)) else a)
              (if c a then l'.set a (g a (l'.getD a d)) else l') := by
        intro l'; rfl
      rw [step]
      set l₁ := if c a then l.set a (g a (l.getD a d)) else l with hl₁
      have hlen₁ : l₁.length = l.length := by
        rw [hl₁]; split <;> simp [List.length_set]
      have hget₁ : ∀ i, l₁[i]? =
          if i = a ∧ c a = true then l[i]?.map (g a) else l[i]? := by
        intro i
        rw [hl₁]
        by_cases hca : c a = true
        · simp only [hca, if_true, and_true]
          by_cases hia : i = a
          · subst hia
            rw [List.getElem?_set]
            simp only [if_pos rfl]
            cases hli : l[i]? with
            | none =>
                have : l.length ≤ i := by
                  by_contra hlt
                  push_neg at hlt
                  rw [List.getElem?_eq_getElem hlt] at hli
                  simp at hli
                simp [Nat.not_lt.mpr this]
            | some x =>
                have hlt : i < l.length := by
                  by_contra hge
                  push_neg at hge
                  rw [List.getElem?_eq_none hge] at hli
                  simp at hli
                have hgd : l.getD i d = x := by
                  rw [List.getD_eq_getElem?_getD, hli]; rfl
                have hsome := List.getElem?_eq_getElem hlt
                rw [hli] at hsome
                simp [hlt, hgd, Option.some.inj hsome]
          · rw [List.getElem?_set_ne (by omega)]
            simp [hia]
        · simp [hca]
      rcases ih hndL l₁ with ⟨ihlen, ihget⟩
      constructor
      · rw [ihlen, hlen₁]
      · intro i
        rw [ihget i, hget₁ i]
        by_cases hiL : i ∈ L
        · have hia : i ≠ a := fun h => haL (h ▸ hiL)
          simp [hiL, hia]
        · by_cases hia : i = a
          · subst hia
            simp [hiL, haL]
          · simp [hiL, hia]

/-! ### Batch splitting and phase-level lemmas -/

/-- Bind after a successful `Except` computation. -/
theorem exceptOkBind {ε α β : Type} (x : α) (f : α → Except ε β) :
    ((Except.ok x : Except ε α) >>= f) = f x := rfl

/-- A batch of the invariant length splits positionally. -/
theorem DataBatchToVariables_ok {α : Type} (batch : List α) (ni nl : ℕ)
    (h : batch.length = ni + nl + 1) :
    ∃ w, DataBatchToVariables batch ni nl =
        .ok (batch.take ni, (batch.drop ni).take nl, w) ∧
      batch.getLast? = some w := by
  unfold DataBatchToVariables
  rw [dif_pos h]
  exact ⟨batch.getLast _, rfl, List.getLast?_eq_getLast _ _⟩

/-- A batch of any other length fails the assert. -/
theorem DataBatchToVariables_error {α : Type} (batch : List α) (ni nl : ℕ)
    (h : batch.length ≠ ni + nl + 1) :
    DataBatchToVariables batch ni nl = .error ("MalformedBatch") := by
  unfold DataBatchToVariables
  rw [dif_neg h]

/-- With at least one input tensor, `input_vars[0]` is the first tensor
of the batch. -/
theorem headE_take_eq (batch : List ℕ) (ni : ℕ) (hni : 0 < ni)
    (hb : batch ≠ []) :
    headE (batch.take ni) = .ok (batch.headD 0) := by
  cases batch with
  | nil => exact absurd rfl hb
  | cons x t =>
      cases ni with
      | zero => omega
      | succ k => rfl

/-- A well-formed training batch is processed without error and performs
exactly the guarded per-net updates (`batchStepT`).  The side condition:
either there is at least one input tensor, or no net consumes this
batch. -/
theorem processTrainBatch_ok (cfg : TrainConfig) (ni nl e j : ℕ)
    (batch : List ℕ) (acc : Accum)
    (hwf : batch.length = ni + nl + 1)
    (hok : 0 < ni ∨ ∀ i, ¬ (cfg.rand e j i < cfg.batch_use_prob)) :
    processTrainBatch cfg ni nl e j batch acc =
      .ok (batchStepT cfg e acc (j, batch)) := by
  unfold processTrainBatch
  obtain ⟨w, hsplit, -⟩ := DataBatchToVariables_ok batch ni nl hwf
  rw [hsplit, exceptOkBind]
  show (List.range cfg.nets.length).foldlM
      (fun a i =>
        if cfg.rand e j i < cfg.batch_use_prob then do
          let batch_size ← headE (batch.take ni)
          pure (consumeNet cfg e j batch_size i a)
        else pure a)
      acc = _
  have hbne : batch ≠ [] := by
    intro hnil; rw [hnil] at hwf; simp at hwf
  refine foldlM_eq_ok_foldl (fun _ => True) _
    (netStepT cfg e j (batch.headD 0)) (List.range cfg.nets.length)
    (fun a i _ _ => ?_) (fun _ _ _ _ => trivial) acc trivial
  unfold netStepT
  by_cases hc : cfg.rand e j i < cfg.batch_use_prob
  · rw [if_pos hc, if_pos hc]
    have hni : 0 < ni := by
      rcases hok with h | h
      · exact h
      · exact absurd hc (h i)
    show (headE (batch.take ni) >>= fun bs =>
        pure (consumeNet cfg e j bs i a)) = _
    rw [headE_take_eq batch ni hni hbne, exceptOkBind]
    rfl
  · rw [if_neg hc, if_neg hc]
    rfl

/-- The training phase of an epoch succeeds on well-formed batches and
folds `batchStepT` over the enumerated loader from zero accumulators. -/
theorem trainPhase_ok (cfg : TrainConfig) (ni nl e : ℕ)
    (hwf : ∀ b ∈ cfg.train_loader, b.length = ni + nl + 1)
    (hok : 0 < ni ∨ ∀ j i, ¬ (cfg.rand e j i < cfg.batch_use_prob)) :
    trainPhase cfg ni nl e = .ok
      (cfg.train_loader.enum.foldl (batchStepT cfg e)
        ⟨List.replicate cfg.nets.length 0, List.replicate cfg.nets.length 0,
         List.replicate cfg.nets.length 0⟩) := by
  unfold trainPhase
  refine foldlM_eq_ok_foldl (fun _ => True) _ (batchStepT cfg e)
    cfg.train_loader.enum (fun b p hp _ => ?_) (fun _ _ _ _ => trivial)
    _ trivial
  rcases p with ⟨j, batch⟩
  rcases List.mem_enum hp with ⟨hj, hbatch⟩
  have hbmem : batch ∈ cfg.train_loader := by
    rw [hbatch]; exact List.getElem_mem hj
  refine processTrainBatch_ok cfg ni nl e j batch b (hwf batch hbmem) ?_
  rcases hok with h | h
  · exact Or.inl h
  · exact Or.inr (h j)

/-- A well-formed validation batch is processed without error and
performs the unconditional per-net updates (`batchStepV`). -/
theorem processValBatch_ok (cfg : TrainConfig) (ni nl e j : ℕ)
    (batch : List ℕ) (acc : ValAccum)
    (hwf : batch.length = ni + nl + 1) (hni : 0 < ni) :
    processValBatch cfg ni nl e j batch acc =
      .ok (batchStepV cfg e acc (j, batch)) := by
  unfold processValBatch
  obtain ⟨w, hsplit, -⟩ := DataBatchToVariables_ok batch ni nl hwf
  rw [hsplit, exceptOkBind]
  show (List.range cfg.nets.length).foldlM
      (fun a i => do
        let batch_size ← headE (batch.take ni)
        pure (evalNet cfg e j batch_size i a))
      acc = _
  have hbne : batch ≠ [] := by
    intro hnil; rw [hnil] at hwf; simp at hwf
  refine foldlM_eq_ok_foldl (fun _ => True) _
    (fun a i => evalNet cfg e j (batch.headD 0) i a)
    (List.range cfg.nets.length)
    (fun a i _ _ => ?_) (fun _ _ _ _ => trivial) acc trivial
  show (headE (batch.take ni) >>= fun bs =>
      pure (evalNet cfg e j bs i a)) = _
  rw [headE_take_eq batch ni hni hbne, exceptOkBind]
  rfl

/-- The validation phase of an epoch succeeds on well-formed batches and
folds `batchStepV` over the enumerated loader from zero accumulators. -/
theorem valPhase_ok (cfg : TrainConfig) (ni nl e : ℕ)
    (hwf : ∀ b ∈ cfg.val_loader, b.length = ni + nl + 1) (hni : 0 < ni) :
    valPhase cfg ni nl e = .ok
      (cfg.val_loader.enum.foldl (batchStepV cfg e)
        ⟨List.replicate cfg.nets.length 0, List.replicate cfg.nets.length 0,
         []⟩) := by
  unfold valPhase
  refine foldlM_eq_ok_foldl (fun _ => True) _ (batchStepV cfg e)
    cfg.val_loader.enum (fun b p hp _ => ?_) (fun _ _ _ _ => trivial)
    _ trivial
  rcases p with ⟨j, batch⟩
  rcases List.mem_enum hp with ⟨hj, hbatch⟩
  have hbmem : batch ∈ cfg.val_loader := by
    rw [hbatch]; exact List.getElem_mem hj
  exact processValBatch_ok cfg ni nl e j batch b (hwf batch hbmem) hni

/-! ### Accumulator characterizations -/

/-- Effect of one training batch on the per-net example counts. -/
theorem batchStepT_examples (cfg : TrainConfig) (e : ℕ) (p : ℕ × List ℕ)
    (acc : Accum) :
    ((batchStepT cfg e acc p).train_examples_per_net.length =
      acc.train_examples_per_net.length) ∧
    ∀ i, (batchStepT cfg e acc p).train_examples_per_net[i]? =
      if i < cfg.nets.length ∧
          decide (cfg.rand e p.1 i < cfg.batch_use_prob) = true then
        acc.train_examples_per_net[i]?.map (fun x => x + p.2.headD 0)
      else acc.train_examples_per_net[i]? := by
  have hproj : (batchStepT cfg e acc p).train_examples_per_net =
      (List.range cfg.nets.length).foldl
        (fun l i =>
          if (fun k => decide (cfg.rand e p.1 k < cfg.batch_use_prob)) i then
            l.set i ((fun _ x => x + p.2.headD 0) i (l.getD i 0))
          else l)
        acc.train_examples_per_net := by
    unfold batchStepT
    refine (List.foldl_hom Accum.train_examples_per_net _ _ _ _ ?_).symm
    intro x i
    unfold netStepT consumeNet
    by_cases hc : cfg.rand e p.1 i < cfg.batch_use_prob
    · simp [hc]
    · simp [hc]
  rcases foldl_update_getElem
      (fun k => decide (cfg.rand e p.1 k < cfg.batch_use_prob))
      (fun _ x => x + p.2.headD 0) 0 (List.range cfg.nets.length)
      (List.nodup_range _) acc.train_examples_per_net with ⟨hlen, hget⟩
  constructor
  · rw [hproj]; exact hlen
  · intro i
    rw [hproj, hget i]
    simp [List.mem_range]

/-- Effect of one training batch on the per-net running losses. -/
theorem batchStepT_losses (cfg : TrainConfig) (e : ℕ) (p : ℕ × List ℕ)
    (acc : Accum) :
    ((batchStepT cfg e acc p).running_losses.length =
      acc.running_losses.length) ∧
    ∀ i, (batchStepT cfg e acc p).running_losses[i]? =
      if i < cfg.nets.length ∧
          decide (cfg.rand e p.1 i < cfg.batch_use_prob) = true then
        acc.running_losses[i]?.map
          (fun x => x + cfg.trainLossVal e p.1 i * ((p.2.headD 0 : ℕ) : ℚ))
      else acc.running_losses[i]? := by
  have hproj : (batchStepT cfg e acc p).running_losses =
      (List.range cfg.nets.length).foldl
        (fun l i =>
          if (fun k => decide (cfg.rand e p.1 k < cfg.batch_use_prob)) i then
            l.set i ((fun k x =>
              x + cfg.trainLossVal e p.1 k * ((p.2.headD 0 : ℕ) : ℚ)) i
              (l.getD i 0))
          else l)
        acc.running_losses := by
    unfold batchStepT
    refine (List.foldl_hom Accum.running_losses _ _ _ _ ?_).symm
    intro x i
    unfold netStepT consumeNet
    by_cases hc : cfg.rand e p.1 i < cfg.batch_use_prob
    · simp [hc]
    · simp [hc]
  rcases foldl_update_getElem
      (fun k => decide (cfg.rand e p.1 k < cfg.batch_use_prob))
      (fun k x => x + cfg.trainLossVal e p.1 k * ((p.2.headD 0 : ℕ) : ℚ)) 0
      (List.range cfg.nets.length)
      (List.nodup_range _) acc.running_losses with ⟨hlen, hget⟩
  constructor
  · rw [hproj]; exact hlen
  · intro i
    rw [hproj, hget i]
    simp [List.mem_range]

/-- Effect of one training batch on the per-net gradient-step counts. -/
theorem batchStepT_steps (cfg : TrainConfig) (e : ℕ) (p : ℕ × List ℕ)
    (acc : Accum) :
    ((batchStepT cfg e acc p).grad_steps.length = acc.grad_steps.length) ∧
    ∀ i, (batchStepT cfg e acc p).grad_steps[i]? =
      if i < cfg.nets.length ∧
          decide (cfg.rand e p.1 i < cfg.batch_use_prob) = true then
        acc.grad_steps[i]?.map (fun x => x + 1)
      else acc.grad_steps[i]? := by
  have hproj : (batchStepT cfg e acc p).grad_steps =
      (List.range cfg.nets.length).foldl
        (fun l i =>
          if (fun k => decide (cfg.rand e p.1 k < cfg.batch_use_prob)) i then
            l.set i ((fun _ x => x + 1) i (l.getD i 0))
          else l)
        acc.grad_steps := by
    unfold batchStepT
    refine (List.foldl_hom Accum.grad_steps _ _ _ _ ?_).symm
    intro x i
    unfold netStepT consumeNet
    by_cases hc : cfg.rand e p.1 i < cfg.batch_use_prob
    · simp [hc]
    · simp [hc]
  rcases foldl_update_getElem
      (fun k => decide (cfg.rand e p.1 k < cfg.batch_use_prob))
      (fun _ x => x + 1) 0 (List.range cfg.nets.length)
      (List.nodup_range _) acc.grad_steps with ⟨hlen, hget⟩
  constructor
  · rw [hproj]; exact hlen
  · intro i
    rw [hproj, hget i]
    simp [List.mem_range]

/-- The whole training phase: per-net example counts over an enumerated
batch list. -/
theorem trainFold_examples (cfg : TrainConfig) (e : ℕ) :
    ∀ (L : List (ℕ × List ℕ)) (acc : Accum),
      ((L.foldl (batchStepT cfg e) acc).train_examples_per_net.length =
        acc.train_examples_per_net.length) ∧
      ∀ i, i < cfg.nets.length →
        (L.foldl (batchStepT cfg e) acc).train_examples_per_net[i]? =
          acc.train_examples_per_net[i]?.map
            (fun x => x + consumedExamples cfg e i L) := by
  intro L
  induction L with
  | nil =>
      intro acc
      refine ⟨rfl, fun i _ => ?_⟩
      simp [consumedExamples]
  | cons p L ih =>
      intro acc
      rcases batchStepT_examples cfg e p acc with ⟨hlen, hget⟩
      rcases ih (batchStepT cfg e acc p) with ⟨ihlen, ihget⟩
      have hfold : (p :: L).foldl (batchStepT cfg e) acc =
          L.foldl (batchStepT cfg e) (batchStepT cfg e acc p) := rfl
      constructor
      · rw [hfold, ihlen, hlen]
      · intro i hi
        rw [hfold, ihget i hi, hget i]
        by_cases hc : decide (cfg.rand e p.1 i < cfg.batch_use_prob) = true
        · rw [if_pos ⟨hi, hc⟩]
          cases ho : acc.train_examples_per_net[i]? with
          | none => rfl
          | some x =>
              simp only [Option.map_some', Option.some.injEq]
              unfold consumedExamples
              rw [List.filter_cons, if_pos hc]
              simp [add_assoc]
        · rw [if_neg (fun h => hc h.2)]
          unfold consumedExamples
          rw [List.filter_cons, if_neg (by simp [hc])]

/-- The whole training phase: per-net running losses over an enumerated
batch list. -/
theorem trainFold_losses (cfg : TrainConfig) (e : ℕ) :
    ∀ (L : List (ℕ × List ℕ)) (acc : Accum),
      ((L.foldl (batchStepT cfg e) acc).running_losses.length =
        acc.running_losses.length) ∧
      ∀ i, i < cfg.nets.length →
        (L.foldl (batchStepT cfg e) acc).running_losses[i]? =
          acc.running_losses[i]?.map
            (fun x => x + consumedLoss cfg e i L) := by
  intro L
  induction L with
  | nil =>
      intro acc
      refine ⟨rfl, fun i _ => ?_⟩
      simp [consumedLoss]
  | cons p L ih =>
      intro acc
      rcases batchStepT_losses cfg e p acc with ⟨hlen, hget⟩
      rcases ih (batchStepT cfg e acc p) with ⟨ihlen, ihget⟩
      have hfold : (p :: L).foldl (batchStepT cfg e) acc =
          L.foldl (batchStepT cfg e) (batchStepT cfg e acc p) := rfl
      constructor
      · rw [hfold, ihlen, hlen]
      · intro i hi
        rw [hfold, ihget i hi, hget i]
        by_cases hc : decide (cfg.rand e p.1 i < cfg.batch_use_prob) = true
        · rw [if_pos ⟨hi, hc⟩]
          cases ho : acc.running_losses[i]? with
          | none => rfl
          | some x =>
              simp only [Option.map_some', Option.some.injEq]
              unfold consumedLoss
              rw [List.filter_cons, if_pos hc]
              simp [add_assoc]
        · rw [if_neg (fun h => hc h.2)]
          unfold consumedLoss
          rw [List.filter_cons, if_neg (by simp [hc])]

/-- The whole training phase: per-net gradient-step counts over an
enumerated batch list. -/
theorem trainFold_steps (cfg : TrainConfig) (e : ℕ) :
    ∀ (L : List (ℕ × List ℕ)) (acc : Accum),
      ((L.foldl (batchStepT cfg e) acc).grad_steps.length =
        acc.grad_steps.length) ∧
      ∀ i, i < cfg.nets.length →
        (L.foldl (batchStepT cfg e) acc).grad_steps[i]? =
          acc.grad_steps[i]?.map (fun x => x + consumedSteps cfg e i L) := by
  intro L
  induction L with
  | nil =>
      intro acc
      refine ⟨rfl, fun i _ => ?_⟩
      simp [consumedSteps]
  | cons p L ih =>
      intro acc
      rcases batchStepT_steps cfg e p acc with ⟨hlen, hget⟩
      rcases ih (batchStepT cfg e acc p) with ⟨ihlen, ihget⟩
      have hfold : (p :: L).foldl (batchStepT cfg e) acc =
          L.foldl (batchStepT cfg e) (batchStepT cfg e acc p) := rfl
      constructor
      · rw [hfold, ihlen, hlen]
      · intro i hi
        rw [hfold, ihget i hi, hget i]
        by_cases hc : decide (cfg.rand e p.1 i < cfg.batch_use_prob) = true
        · rw [if_pos ⟨hi, hc⟩]
          cases ho : acc.grad_steps[i]? with
          | none => rfl
          | some x =>
              simp only [Option.map_some', Option.some.injEq]
              unfold consumedSteps
              rw [List.filter_cons, if_pos hc]
              simp
              omega
        · rw [if_neg (fun h => hc h.2)]
          unfold consumedSteps
          rw [List.filter_cons, if_neg (by simp [hc])]

/-- Effect of one validation batch on the per-net example counts: every
net accumulates the batch size. -/
theorem batchStepV_examples (cfg : TrainConfig) (e : ℕ) (p : ℕ × List ℕ)
    (acc : ValAccum) :
    ((batchStepV cfg e acc p).validation_examples.length =
      acc.validation_examples.length) ∧
    ∀ i, (batchStepV cfg e acc p).validation_examples[i]? =
      if i < cfg.nets.length then
        acc.validation_examples[i]?.map (fun x => x + p.2.headD 0)
      else acc.validation_examples[i]? := by
  have hproj : (batchStepV cfg e acc p).validation_examples =
      (List.range cfg.nets.length).foldl
        (fun l i =>
          if (fun _ => true) i then
            l.set i ((fun _ x => x + p.2.headD 0) i (l.getD i 0))
          else l)
        acc.validation_examples := by
    unfold batchStepV
    refine (List.foldl_hom ValAccum.validation_examples _ _ _ _ ?_).symm
    intro x i
    simp [evalNet]
  rcases foldl_update_getElem (fun _ => true)
      (fun _ x => x + p.2.headD 0) 0 (List.range cfg.nets.length)
      (List.nodup_range _) acc.validation_examples with ⟨hlen, hget⟩
  constructor
  · rw [hproj]; exact hlen
  · intro i
    rw [hproj, hget i]
    simp [List.mem_range]

/-- Effect of one validation batch on the per-net loss totals. -/
theorem batchStepV_losses (cfg : TrainConfig) (e : ℕ) (p : ℕ × List ℕ)
    (acc : ValAccum) :
    ((batchStepV cfg e acc p).validation_total_losses.length =
      acc.validation_total_losses.length) ∧
    ∀ i, (batchStepV cfg e acc p).validation_total_losses[i]? =
      if i < cfg.nets.length then
        acc.validation_total_losses[i]?.map
          (fun x => x + cfg.valLossVal e p.1 i * ((p.2.headD 0 : ℕ) : ℚ))
      else acc.validation_total_losses[i]? := by
  have hproj : (batchStepV cfg e acc p).validation_total_losses =
      (List.range cfg.nets.length).foldl
        (fun l i =>
          if (fun _ => true) i then
            l.set i ((fun k x =>
              x + cfg.valLossVal e p.1 k * ((p.2.headD 0 : ℕ) : ℚ)) i
              (l.getD i 0))
          else l)
        acc.validation_total_losses := by
    unfold batchStepV
    refine (List.foldl_hom ValAccum.validation_total_losses _ _ _ _ ?_).symm
    intro x i
    simp [evalNet]
  rcases foldl_update_getElem (fun _ => true)
      (fun k x => x + cfg.valLossVal e p.1 k * ((p.2.headD 0 : ℕ) : ℚ)) 0
      (List.range cfg.nets.length)
      (List.nodup_range _) acc.validation_total_losses with ⟨hlen, hget⟩
  constructor
  · rw [hproj]; exact hlen
  · intro i
    rw [hproj, hget i]
    simp [List.mem_range]

/-- Effect of one validation batch on the trace: every net appends one
evaluation event, in index order. -/
theorem batchStepV_trace (cfg : TrainConfig) (e : ℕ) (p : ℕ × List ℕ)
    (acc : ValAccum) :
    (batchStepV cfg e acc p).trace =
      acc.trace ++ (List.range cfg.nets.length).map
        (fun i => TraceEvent.valEval i p.1) := by
  have hproj : (batchStepV cfg e acc p).trace =
      (List.range cfg.nets.length).foldl
        (fun t i => t ++ [TraceEvent.valEval i p.1]) acc.trace := by
    unfold batchStepV
    refine (List.foldl_hom ValAccum.trace _ _ _ _ ?_).symm
    intro x i
    simp [evalNet]
  rw [hproj, foldl_append_map]

/-- The whole validation phase: per-net example counts over an
enumerated batch list. -/
theorem valFold_examples (cfg : TrainConfig) (e : ℕ) :
    ∀ (L : List (ℕ × List ℕ)) (acc : ValAccum),
      ((L.foldl (batchStepV cfg e) acc).validation_examples.length =
        acc.validation_examples.length) ∧
      ∀ i, i < cfg.nets.length →
        (L.foldl (batchStepV cfg e) acc).validation_examples[i]? =
          acc.validation_examples[i]?.map (fun x => x + valExamplesOf L) := by
  intro L
  induction L with
  | nil =>
      intro acc
      refine ⟨rfl, fun i _ => ?_⟩
      simp [valExamplesOf]
  | cons p L ih =>
      intro acc
      rcases batchStepV_examples cfg e p acc with ⟨hlen, hget⟩
      rcases ih (batchStepV cfg e acc p) with ⟨ihlen, ihget⟩
      have hfold : (p :: L).foldl (batchStepV cfg e) acc =
          L.foldl (batchStepV cfg e) (batchStepV cfg e acc p) := rfl
      constructor
      · rw [hfold, ihlen, hlen]
      · intro i hi
        rw [hfold, ihget i hi, hget i, if_pos hi]
        cases ho : acc.validation_examples[i]? with
        | none => rfl
        | some x =>
            simp only [Option.map_some', Option.some.injEq]
            unfold valExamplesOf
            simp [add_assoc]

/-- The whole validation phase: per-net loss totals over an enumerated
batch list. -/
theorem valFold_losses (cfg : TrainConfig) (e : ℕ) :
    ∀ (L : List (ℕ × List ℕ)) (acc : ValAccum),
      ((L.foldl (batchStepV cfg e) acc).validation_total_losses.length =
        acc.validation_total_losses.length) ∧
      ∀ i, i < cfg.nets.length →
        (L.foldl (batchStepV cfg e) acc).validation_total_losses[i]? =
          acc.validation_total_losses[i]?.map
            (fun x => x + valLossTotal cfg e i L) := by
  intro L
  induction L with
  | nil =>
      intro acc
      refine ⟨rfl, fun i _ => ?_⟩
      simp [valLossTotal]
  | cons p L ih =>
      intro acc
      rcases batchStepV_losses cfg e p acc with ⟨hlen, hget⟩
      rcases ih (batchStepV cfg e acc p) with ⟨ihlen, ihget⟩
      have hfold : (p :: L).foldl (batchStepV cfg e) acc =
          L.foldl (batchStepV cfg e) (batchStepV cfg e acc p) := rfl
      constructor
      · rw [hfold, ihlen, hlen]
      · intro i hi
        rw [hfold, ihget i hi, hget i, if_pos hi]
        cases ho : acc.validation_total_losses[i]? with
        | none => rfl
        | some x =>
            simp only [Option.map_some', Option.some.injEq]
            unfold valLossTotal
            simp [add_assoc]

/-- The whole validation phase: the trace lists, for each batch in
order, one evaluation event per net in index order. -/
theorem valFold_trace (cfg : TrainConfig) (e : ℕ) :
    ∀ (L : List (ℕ × List ℕ)) (acc : ValAccum),
      (L.foldl (batchStepV cfg e) acc).trace =
        acc.trace ++ L.flatMap
          (fun p => (List.range cfg.nets.length).map
            (fun i => TraceEvent.valEval i p.1)) := by
  intro L
  induction L with
  | nil => intro acc; simp
  | cons p L ih =>
      intro acc
      have hfold : (p :: L).foldl (batchStepV cfg e) acc =
          L.foldl (batchStepV cfg e) (batchStepV cfg e acc p) := rfl
      rw [hfold, ih, batchStepV_trace]
      simp [List.append_assoc]

/-! ### Epoch-level characterization -/

/-- Bind against an `Except` computation succeeds exactly when both
stages succeed. -/
theorem exceptBindOkIff {ε α β : Type} (x : Except ε α)
    (f : α → Except ε β) (c : β) :
    (x >>= f) = .ok c ↔ ∃ a, x = .ok a ∧ f a = .ok c := by
  cases x with
  | error s => simp [Bind.bind, Except.bind]
  | ok a => simp [Bind.bind, Except.bind]

/-- Running `pure` in `Except` succeeds with exactly its argument. -/
theorem exceptPureOkIff {ε α : Type} (a b : α) :
    (pure a : Except ε α) = .ok b ↔ b = a := by
  constructor
  · intro h; exact (Except.ok.inj h).symm
  · intro h; rw [h]; rfl

/-- An epoch succeeds exactly when its two phases and three divisions
succeed, and then performs exactly the `epochUpdate` state change. -/
theorem runEpoch_ok_iff (cfg : TrainConfig) (ni nl e : ℕ)
    (st st' : RunState) :
    runEpoch cfg ni nl e st = .ok st' ↔
      ∃ acc eps avg v vavg,
        trainPhase cfg ni nl e = .ok acc ∧
        pyDiv ((acc.train_examples_per_net.sum : ℕ) : ℚ)
          (cfg.epochDuration e) = .ok eps ∧
        PooledAverage acc.running_losses acc.train_examples_per_net =
          .ok avg ∧
        valPhase cfg ni nl e = .ok v ∧
        PooledAverage v.validation_total_losses v.validation_examples =
          .ok vavg ∧
        st' = epochUpdate cfg st v avg vavg (cfg.epochDuration e) eps := by
  unfold runEpoch
  simp only [exceptBindOkIff, exceptPureOkIff]
  constructor
  · rintro ⟨acc, h1, eps, h2, avg, h3, v, h4, vavg, h5, h6⟩
    exact ⟨acc, eps, avg, v, vavg, h1, h2, h3, h4, h5, by rw [h6]; rfl⟩
  · rintro ⟨acc, eps, avg, v, vavg, h1, h2, h3, h4, h5, h6⟩
    exact ⟨acc, h1, eps, h2, avg, h3, v, h4, vavg, h5, by rw [h6]; rfl⟩

/-- Python division by zero is the error, not a value. -/
theorem pyDiv_zero (x : ℚ) : pyDiv x 0 = .error ("ZeroDivisionError") := by
  unfold pyDiv
  rw [if_pos rfl]

/-- If the training phase accumulated no examples at all, the epoch
raises `ZeroDivisionError` (at line 117 when the measured duration is
also zero, otherwise at line 119). -/
theorem runEpoch_zero_examples_error (cfg : TrainConfig) (ni nl e : ℕ)
    (st : RunState) (acc : Accum)
    (h : trainPhase cfg ni nl e = .ok acc)
    (hz : acc.train_examples_per_net.sum = 0) :
    runEpoch cfg ni nl e st = .error ("ZeroDivisionError") := by
  unfold runEpoch
  rw [h]
  simp only [exceptOkBind]
  by_cases hd : cfg.epochDuration e = 0
  · unfold pyDiv
    rw [if_pos hd]
    rfl
  · unfold pyDiv
    rw [if_neg hd]
    simp only [exceptOkBind]
    have hpool : PooledAverage acc.running_losses acc.train_examples_per_net =
        Except.error ("ZeroDivisionError") := by
      unfold PooledAverage pyDiv
      rw [hz]
      norm_num
    rw [hpool]
    rfl

/-- A successful epoch appends exactly one record to the training log:
the record `epochMetricsOf` computes for that epoch. -/
theorem runEpoch_log (cfg : TrainConfig) (ni nl e : ℕ) (st st' : RunState)
    (h : runEpoch cfg ni nl e st = .ok st') :
    ∃ m, epochMetricsOf cfg ni nl e = .ok m ∧
      st'.train_log = st.train_log ++ [m] := by
  rcases (runEpoch_ok_iff cfg ni nl e st st').mp h with
    ⟨acc, eps, avg, v, vavg, h1, h2, h3, h4, h5, h6⟩
  refine ⟨⟨avg, vavg, cfg.epochDuration e, eps⟩, ?_, ?_⟩
  · unfold epochMetricsOf
    rw [h1]; simp only [exceptOkBind]
    rw [h2]; simp only [exceptOkBind]
    rw [h3]; simp only [exceptOkBind]
    rw [h4]; simp only [exceptOkBind]
    rw [h5]; simp only [exceptOkBind]
    rfl
  · rw [h6]; rfl

/-- A successful epoch performs exactly the checkpoint-loop state change
on the minima and the save list. -/
theorem runEpoch_state (cfg : TrainConfig) (ni nl e : ℕ)
    (st st' : RunState) (h : runEpoch cfg ni nl e st = .ok st') :
    ∃ v, valPhase cfg ni nl e = .ok v ∧
      st'.min_validation_losses = (List.range cfg.nets.length).map
        (fun i =>
          if ((AverageLosses v.validation_total_losses
                v.validation_examples).getD i .inf).lt
              (st.min_validation_losses.getD i .inf) then
            (AverageLosses v.validation_total_losses
              v.validation_examples).getD i .inf
          else st.min_validation_losses.getD i .inf) ∧
      st'.saves = st.saves ++ (List.range cfg.nets.length).filterMap
        (fun i =>
          if ((AverageLosses v.validation_total_losses
                v.validation_examples).getD i .inf).lt
              (st.min_validation_losses.getD i .inf) then
            some ⟨i, CkptKind.best⟩
          else none) := by
  rcases (runEpoch_ok_iff cfg ni nl e st st').mp h with
    ⟨acc, eps, avg, v, vavg, h1, h2, h3, h4, h5, h6⟩
  exact ⟨v, h4, by rw [h6]; rfl, by rw [h6]; rfl⟩

/-- Over any epoch list, a successful run appends one log record per
epoch, in order, each the record `epochMetricsOf` computes. -/
theorem runFold_log (cfg : TrainConfig) (ni nl : ℕ) :
    ∀ (E : List ℕ) (st st' : RunState),
      E.foldlM (fun s e => runEpoch cfg ni nl e s) st = .ok st' →
      ∃ ms : List EpochMetrics,
        st'.train_log = st.train_log ++ ms ∧ ms.length = E.length ∧
        ∀ k, k < E.length → ∃ m, ms[k]? = some m ∧
          epochMetricsOf cfg ni nl (E.getD k 0) = .ok m := by
  intro E
  induction E with
  | nil =>
      intro st st' h
      have hst : st = st' := Except.ok.inj h
      exact ⟨[], by rw [← hst]; simp, rfl, fun k hk => absurd hk (by simp)⟩
  | cons e E ih =>
      intro st st' h
      rw [List.foldlM_cons] at h
      cases h1 : runEpoch cfg ni nl e st with
      | error s =>
          rw [h1] at h
          simp [Bind.bind, Except.bind] at h
      | ok st₁ =>
          rw [h1] at h
          rw [show ((Except.ok st₁ >>= fun x =>
              E.foldlM (fun s e => runEpoch cfg ni nl e s) x) =
            E.foldlM (fun s e => runEpoch cfg ni nl e s) st₁) from rfl] at h
          rcases runEpoch_log cfg ni nl e st st₁ h1 with ⟨m, hm, hlog₁⟩
          rcases ih st₁ st' h with ⟨ms, hlog, hlen, hidx⟩
          refine ⟨m :: ms, ?_, by simp [hlen], ?_⟩
          · rw [hlog, hlog₁, List.append_assoc]
            rfl
          · intro k hk
            cases k with
            | zero => exact ⟨m, by simp, hm⟩
            | succ k' =>
                rcases hidx k' (by simpa using hk) with ⟨m', hm', hms'⟩
                exact ⟨m', by simpa using hm', by simpa using hms'⟩

/-! ### Small arithmetic and list helpers -/

/-- The running minimum never increases in one comparison step. -/
theorem pyFloat_min_le (v m : PyFloat) :
    PyFloat.le (if PyFloat.lt v m then v else m) m = true := by
  cases v with
  | fin a =>
      cases m with
      | fin b =>
          by_cases hab : a < b
          · simp [PyFloat.lt, PyFloat.le, hab, le_of_lt hab]
          · simp [PyFloat.lt, PyFloat.le, hab]
      | inf => simp [PyFloat.lt, PyFloat.le]
  | inf =>
      cases m with
      | fin b => simp [PyFloat.lt, PyFloat.le]
      | inf => simp [PyFloat.lt, PyFloat.le]

/-- Elementwise view of `zip`. -/
theorem zip_getElem_opt {α β : Type} :
    ∀ (l₁ : List α) (l₂ : List β) (i : ℕ),
      (l₁.zip l₂)[i]? =
        l₁[i]?.bind (fun a => l₂[i]?.map (fun b => (a, b))) := by
  intro l₁
  induction l₁ with
  | nil => intro l₂ i; simp
  | cons a t ih =>
      intro l₂ i
      cases l₂ with
      | nil => simp
      | cons b t₂ =>
          cases i with
          | zero => simp
          | succ k => simpa using ih t₂ k

/-- Elementwise value of `AverageLosses` at an in-range index. -/
theorem AverageLosses_getElem (tl : List ℚ) (te : List ℕ) (i : ℕ)
    (h₁ : i < tl.length) (h₂ : i < te.length) :
    (AverageLosses tl te)[i]? =
      some (if 0 < te.getD i 0 then
          .fin (tl.getD i 0 / ((te.getD i 0 : ℕ) : ℚ))
        else .inf) := by
  unfold AverageLosses
  rw [List.getElem?_map, zip_getElem_opt,
    List.getElem?_eq_getElem h₁, List.getElem?_eq_getElem h₂]
  simp [List.getD_eq_getElem?_getD,
    List.getElem?_eq_getElem h₁, List.getElem?_eq_getElem h₂]

/-- The function `AverageLosses` returns one value per `zip` pair. -/
theorem AverageLosses_length (tl : List ℚ) (te : List ℕ) :
    (AverageLosses tl te).length = min tl.length te.length := by
  unfold AverageLosses
  rw [List.length_map, List.length_zip]

/-- With zero examples everywhere, every per-net average is infinity. -/
theorem AverageLosses_replicate_zero (N : ℕ) (x : ℚ) :
    AverageLosses (List.replicate N x) (List.replicate N 0) =
      List.replicate N PyFloat.inf := by
  unfold AverageLosses
  rw [List.zip_replicate]
  simp

/-- A `zip` only reads the common initial segment of its arguments. -/
theorem zip_take_eq {α β : Type} :
    ∀ (l₁ : List α) (l₂ : List β),
      l₁.zip l₂ = (l₁.take l₂.length).zip (l₂.take l₁.length) := by
  intro l₁
  induction l₁ with
  | nil => intro l₂; simp
  | cons a t ih =>
      intro l₂
      cases l₂ with
      | nil => simp
      | cons b t₂ => simp [ih t₂]

/-- Filtering `range` for one index keeps exactly that index. -/
theorem range_filter_beq (i : ℕ) :
    ∀ (N : ℕ), i < N →
      (List.range N).filter (fun k => k == i) = [i] := by
  intro N
  induction N with
  | zero => intro h; omega
  | succ n ih =>
      intro h
      rw [List.range_succ, List.filter_append]
      by_cases hin : i < n
      · rw [ih hin]
        have hne : ¬ (n == i) = true := by
          simp only [beq_iff_eq]
          omega
        simp [List.filter_cons, hne]
      · have hni : i = n := by omega
        subst hni
        have hnil : (List.range i).filter (fun k => k == i) = [] := by
          rw [List.filter_eq_nil_iff]
          intro a ha
          have := List.mem_range.mp ha
          simp only [beq_iff_eq]
          omega
        simp [hnil, List.filter_cons]

/-- Filtering `range` for an out-of-range index keeps nothing. -/
theorem range_filter_beq_none (i N : ℕ) (h : ¬ i < N) :
    (List.range N).filter (fun k => k == i) = [] := by
  rw [List.filter_eq_nil_iff]
  intro a ha
  have := List.mem_range.mp ha
  simp only [beq_iff_eq]
  omega

/-- Membership in the conditional best-checkpoint `filterMap`. -/
theorem mem_best_filterMap (N i : ℕ) (c : ℕ → Bool) :
    (SaveEvent.mk i CkptKind.best ∈ (List.range N).filterMap
      (fun k => if c k then some (SaveEvent.mk k CkptKind.best)
                else none)) ↔ (i < N ∧ c i = true) := by
  rw [List.mem_filterMap]
  constructor
  · rintro ⟨a, ha, hfa⟩
    by_cases hca : c a = true
    · rw [if_pos hca] at hfa
      have hai : a = i := congrArg SaveEvent.netIdx (Option.some.inj hfa)
      subst hai
      exact ⟨List.mem_range.mp ha, hca⟩
    · rw [if_neg hca] at hfa
      cases hfa
  · rintro ⟨hi, hci⟩
    exact ⟨i, List.mem_range.mpr hi, by rw [if_pos hci]⟩

/-! ### Run-level characterization -/

/-- The run succeeds exactly when there is a first net and a first
settings entry and every epoch succeeds; the final state then carries
the per-epoch saves followed by one `last` save per net. -/
theorem TrainModelsRun_ok_iff (cfg : TrainConfig) (r : RunState) :
    TrainModelsRun cfg = .ok r ↔
      ∃ net0 settings0 final,
        headE cfg.nets = .ok net0 ∧
        headE cfg.train_settings = .ok settings0 ∧
        (List.range settings0.epochs).foldlM
          (fun st e => runEpoch cfg net0.input_names.length
            net0.label_names.length e st) (initialRunState cfg) =
          .ok final ∧
        r = { final with saves := final.saves ++
                            (List.range cfg.nets.length).map
                              (fun i => SaveEvent.mk i CkptKind.last) } := by
  unfold TrainModelsRun
  simp only [exceptBindOkIff, exceptPureOkIff]
  constructor
  · rintro ⟨n0, h1, s0, h2, fin, h3, h4⟩
    exact ⟨n0, s0, fin, h1, h2, h3, h4⟩
  · rintro ⟨n0, s0, fin, h1, h2, h3, h4⟩
    exact ⟨n0, h1, s0, h2, fin, h3, h4⟩

/-- A list is a `replicate` when every position holds the same value. -/
theorem eq_replicate_of_getElem {α : Type} (l : List α) (N : ℕ) (x : α)
    (hlen : l.length = N) (h : ∀ i, i < N → l[i]? = some x) :
    l = List.replicate N x := by
  apply List.ext_getElem (by simp [hlen])
  intro n h₁ h₂
  have hn := h n (by omega)
  rw [List.getElem?_eq_getElem h₁] at hn
  rw [Option.some.inj hn]
  exact (List.getElem_replicate x h₂).symm

/-- Reading `getD` through a map over `range`. -/
theorem getD_map_range {α : Type} (N i : ℕ) (f : ℕ → α) (d : α)
    (hi : i < N) :
    ((List.range N).map f).getD i d = f i := by
  rw [List.getD_eq_getElem?_getD, List.getElem?_map, List.getElem?_range hi]
  rfl

/-- Flat-mapping singletons is mapping. -/
theorem flatMap_single {α β : Type} (f : α → β) :
    ∀ l : List α, (l.flatMap (fun x => [f x])) = l.map f := by
  intro l
  induction l with
  | nil => rfl
  | cons a t ih => simp [ih]

/-- Filtering the validation-pass trace for one net keeps exactly that
net's evaluation events, one per batch in order. -/
theorem filter_flatMap_nets (N i : ℕ) (hi : i < N) :
    ∀ (L : List (ℕ × List ℕ)),
      (L.flatMap (fun p => (List.range N).map
        (fun k => TraceEvent.valEval k p.1))).filter (concernsNet i) =
      L.map (fun p => TraceEvent.valEval i p.1) := by
  intro L
  induction L with
  | nil => rfl
  | cons p L ih =>
      rw [List.flatMap_cons, List.filter_append, ih, List.filter_map]
      have hcomp : (concernsNet i ∘ fun k => TraceEvent.valEval k p.1) =
          fun k => k == i := rfl
      rw [hcomp, range_filter_beq i N hi]
      rfl

/-- Every save an epoch performs is a `best` checkpoint. -/
theorem runEpoch_saves_best (cfg : TrainConfig) (ni nl e : ℕ)
    (st st' : RunState) (h : runEpoch cfg ni nl e st = .ok st')
    (hP : ∀ ev ∈ st.saves, ev.kind = CkptKind.best) :
    ∀ ev ∈ st'.saves, ev.kind = CkptKind.best := by
  rcases runEpoch_state cfg ni nl e st st' h with ⟨v, hv, hmins, hsaves⟩
  intro ev hev
  rw [hsaves] at hev
  rcases List.mem_append.mp hev with hold | hnew
  · exact hP ev hold
  · rcases List.mem_filterMap.mp hnew with ⟨a, ha, hfa⟩
    by_cases hca : ((AverageLosses v.validation_total_losses
        v.validation_examples).getD a .inf).lt
        (st.min_validation_losses.getD a .inf) = true
    · rw [if_pos hca] at hfa
      rw [← Option.some.inj hfa]
    · rw [if_neg hca] at hfa
      cases hfa

/-! ### Loss-function lemmas -/

/-- A singleton weight tensor broadcasts to the label length. -/
theorem expandAs_singleton (c : ℚ) (l : List ℚ) :
    expandAs [c] l = .ok (List.replicate l.length c) := by
  unfold expandAs
  by_cases h : ([c] : List ℚ).length = l.length
  · rw [if_pos h]
    have h1 : l.length = 1 := by simpa using h.symm
    rw [h1]
    rfl
  · rw [if_neg h]
    simp

/-- The weighted-MSE forward pass, for any successfully broadcast weight
tensor of the label length. -/
theorem weightedMSE_core (p l w wB : List ℚ)
    (hp : p.length = l.length) (hwB : wB.length = l.length)
    (hex : expandAs w l = .ok wB) (hne : l ≠ []) :
    WeightedMSELoss.forward p l w =
      .ok ((List.zipWith (fun d c => d * c)
          (List.zipWith (fun a b => (a - b) ^ 2) p l) wB).sum /
        (l.length : ℚ)) := by
  unfold WeightedMSELoss.forward
  have hadd : tensorAdd p (l.map Neg.neg) =
      .ok (List.zipWith (· + ·) p (l.map Neg.neg)) := by
    unfold tensorAdd
    rw [if_pos (by simp [hp])]
  rw [hadd]; simp only [exceptOkBind]
  rw [hex]; simp only [exceptOkBind]
  have hsq : (List.zipWith (· + ·) p (l.map Neg.neg)).map
      (fun d => d ^ 2) = List.zipWith (fun a b => (a - b) ^ 2) p l := by
    rw [List.zipWith_map_right, List.map_zipWith]
    simp [sub_eq_add_neg]
  rw [hsq]
  have hlen1 : (List.zipWith (fun a b => (a - b) ^ 2) p l).length =
      l.length := by
    simp [hp]
  have hmul : tensorMul (List.zipWith (fun a b => (a - b) ^ 2) p l) wB =
      .ok (List.zipWith (· * ·)
        (List.zipWith (fun a b => (a - b) ^ 2) p l) wB) := by
    unfold tensorMul
    rw [if_pos (by rw [hlen1, hwB])]
  rw [hmul]; simp only [exceptOkBind]
  unfold tensorMean
  have hlen2 : (List.zipWith (· * ·)
      (List.zipWith (fun a b => (a - b) ^ 2) p l) wB).length = l.length := by
    simp [hlen1, hwB]
  rw [if_neg (by rw [hlen2]; simpa using (List.length_pos.mpr hne).ne'), hlen2]

/-! ### Claims -/

/-- C6: `AverageLosses` is pure and maps equal-length lists of summed
losses and example counts to the elementwise quotients
`running_loss[i] / example_count[i]`, returning infinity exactly at the
indices whose example count is zero; in particular
`AverageLosses [10] [5] = [2]` and `AverageLosses [10] [0] = [inf]`. -/
theorem C6_average_losses :
    (∀ (tl : List ℚ) (te : List ℕ), tl.length = te.length →
      (AverageLosses tl te).length = tl.length ∧
      ∀ i, i < tl.length →
        (AverageLosses tl te)[i]? =
          some (if 0 < te.getD i 0 then
              .fin (tl.getD i 0 / ((te.getD i 0 : ℕ) : ℚ))
            else .inf)) ∧
    AverageLosses [10] [5] = [.fin 2] ∧
    AverageLosses [10] [0] = [.inf] := by
  refine ⟨?_, ?_, ?_⟩
  · intro tl te hlen
    refine ⟨by rw [AverageLosses_length, hlen, min_self], ?_⟩
    intro i hi
    exact AverageLosses_getElem tl te i hi (hlen ▸ hi)
  · norm_num [AverageLosses]
  · norm_num [AverageLosses]

/-- Witness for C6 at `total_losses = [10]`, `total_examples = [5]`. -/
theorem C6_average_losses_witness :
    (AverageLosses [10] [5]).length = [(10 : ℚ)].length ∧
    (AverageLosses [10] [5])[0]? =
      some (if 0 < ([5] : List ℕ).getD 0 0 then
          .fin (([(10 : ℚ)] : List ℚ).getD 0 0 /
            ((([5] : List ℕ).getD 0 0 : ℕ) : ℚ))
        else .inf) := by
  have h := C6_average_losses.1 [10] [5] (by simp)
  exact ⟨h.1, h.2 0 (by simp)⟩

/-- C10: with lists of different lengths, `AverageLosses` silently
returns a result of the shorter length — the extra entries of the longer
list are ignored (Python `zip` truncation) and no mismatch is ever
signalled; in particular the second summed loss below is dropped. -/
theorem C10_average_losses_truncates :
    (∀ (tl : List ℚ) (te : List ℕ),
      (AverageLosses tl te).length = min tl.length te.length) ∧
    (∀ (tl : List ℚ) (te : List ℕ),
      AverageLosses tl te =
        AverageLosses (tl.take te.length) (te.take tl.length)) ∧
    AverageLosses [10, 7] [5] = [.fin 2] := by
  refine ⟨AverageLosses_length, ?_, ?_⟩
  · intro tl te
    unfold AverageLosses
    rw [← zip_take_eq]
  · norm_num [AverageLosses]

/-- C3: splitting a batch of length `num_inputs + num_labels + 1`
returns the first `num_inputs` elements as inputs, the next `num_labels`
as labels and the final element as the weights, with
`len(inputs) + len(labels) + 1 == len(batch)`; a batch whose length is
off by any amount fails with the `MalformedBatch` condition. -/
theorem C3_split_batch {α : Type} (batch : List α) (ni nl : ℕ) :
    (batch.length = ni + nl + 1 →
      ∃ w, DataBatchToVariables batch ni nl =
          .ok (batch.take ni, (batch.drop ni).take nl, w) ∧
        batch.getLast? = some w ∧
        (batch.take ni).length + ((batch.drop ni).take nl).length + 1 =
          batch.length) ∧
    (batch.length ≠ ni + nl + 1 →
      DataBatchToVariables batch ni nl = .error ("MalformedBatch")) := by
  constructor
  · intro h
    rcases DataBatchToVariables_ok batch ni nl h with ⟨w, hok, hlast⟩
    refine ⟨w, hok, hlast, ?_⟩
    rw [List.length_take, List.length_take, List.length_drop, h]
    omega
  · exact DataBatchToVariables_error batch ni nl

/-- Witness for C3 at the batch `[1, 2, 3]` with one input and one
label, and at the short batch `[1, 2]`. -/
theorem C3_split_batch_witness :
    (∃ w, DataBatchToVariables [1, 2, 3] 1 1 =
        .ok (([(1 : ℕ), 2, 3] : List ℕ).take 1,
          (([(1 : ℕ), 2, 3] : List ℕ).drop 1).take 1, w) ∧
      ([(1 : ℕ), 2, 3] : List ℕ).getLast? = some w ∧
      (([(1 : ℕ), 2, 3] : List ℕ).take 1).length +
        ((([(1 : ℕ), 2, 3] : List ℕ).drop 1).take 1).length + 1 =
        ([(1 : ℕ), 2, 3] : List ℕ).length) ∧
    DataBatchToVariables [(1 : ℕ), 2] 1 1 = .error ("MalformedBatch") :=
  ⟨(C3_split_batch [1, 2, 3] 1 1).1 (by simp),
   (C3_split_batch [(1 : ℕ), 2] 1 1).2 (by simp)⟩

/-- C7: the weighted-MSE loss equals the mean over all elements of the
squared difference `(predicted - label)^2` multiplied elementwise by the
weights broadcast to the label shape, with no reduction before
weighting (stated for same-length weights and for a broadcast singleton
weight); in particular predicted = [1, 2], labels = [0, 2],
weights = [2, 1] gives 1. -/
theorem C7_weighted_mse :
    (∀ p l w : List ℚ, p.length = l.length → w.length = l.length →
      l ≠ [] →
      WeightedMSELoss.forward p l w =
        .ok ((List.zipWith (fun d c => d * c)
            (List.zipWith (fun a b => (a - b) ^ 2) p l) w).sum /
          (l.length : ℚ))) ∧
    (∀ (p l : List ℚ) (c : ℚ), p.length = l.length → l ≠ [] →
      WeightedMSELoss.forward p l [c] =
        .ok ((List.zipWith (fun d cc => d * cc)
            (List.zipWith (fun a b => (a - b) ^ 2) p l)
            (List.replicate l.length c)).sum /
          (l.length : ℚ))) ∧
    WeightedMSELoss.forward [1, 2] [0, 2] [2, 1] = .ok 1 := by
  refine ⟨?_, ?_, ?_⟩
  · intro p l w hp hw hne
    refine weightedMSE_core p l w w hp hw ?_ hne
    unfold expandAs
    rw [if_pos hw]
  · intro p l c hp hne
    exact weightedMSE_core p l [c] _ hp (by simp)
      (expandAs_singleton c l) hne
  · norm_num [WeightedMSELoss.forward, tensorAdd, tensorMul, tensorMean,
      expandAs, Bind.bind, Except.bind]

/-- Witness for C7 at predicted = [1, 2], labels = [0, 2],
weights = [2, 1]. -/
theorem C7_weighted_mse_witness :
    WeightedMSELoss.forward [1, 2] [0, 2] [2, 1] =
      .ok ((List.zipWith (fun d c => d * c)
          (List.zipWith (fun a b => (a - b) ^ 2) ([1, 2] : List ℚ)
            [0, 2]) [2, 1]).sum /
        (([0, 2] : List ℚ).length : ℚ)) :=
  C7_weighted_mse.1 [1, 2] [0, 2] [2, 1] (by simp) (by simp) (by simp)

/-- C1 as stated is false at the code: with summed loss 10 and total
example count 0, the pooled average (optimize.py line 119 / 146) raises
`ZeroDivisionError` — it produces no value, infinite or otherwise. -/
theorem C1_pooled_average_counterexample :
    PooledAverage [10] [0] = .error ("ZeroDivisionError") ∧
    ∀ q : ℚ, PooledAverage [10] [0] ≠ .ok q := by
  have h : PooledAverage [10] [0] = .error ("ZeroDivisionError") := by
    norm_num [PooledAverage, pyDiv]
  refine ⟨h, fun q hq => ?_⟩
  rw [h] at hq
  cases hq

/-- C1 (amended): the pooled average equals the sum of per-model
accumulated losses divided by the sum of per-model example counts
whenever the total example count is positive; when the total example
count is zero the division raises `ZeroDivisionError` — and the epoch
that computed it aborts — rather than returning infinity. -/
theorem C1_pooled_average (tl : List ℚ) (te : List ℕ) :
    (0 < te.sum →
      PooledAverage tl te = .ok (tl.sum / ((te.sum : ℕ) : ℚ))) ∧
    (te.sum = 0 →
      PooledAverage tl te = .error ("ZeroDivisionError")) ∧
    ∀ (cfg : TrainConfig) (ni nl e : ℕ) (st : RunState) (acc : Accum),
      trainPhase cfg ni nl e = .ok acc →
      acc.train_examples_per_net.sum = 0 →
      runEpoch cfg ni nl e st = .error ("ZeroDivisionError") := by
  refine ⟨?_, ?_, ?_⟩
  · intro h
    unfold PooledAverage pyDiv
    rw [if_neg (by exact_mod_cast Nat.pos_iff_ne_zero.mp h)]
  · intro h
    unfold PooledAverage pyDiv
    rw [h]
    norm_num
  · intro cfg ni nl e st acc hphase hz
    exact runEpoch_zero_examples_error cfg ni nl e st acc hphase hz

/-- Witness for C1 (amended): a positive total count divides, a zero
total count raises, and a zero-example epoch of the example
configuration (with `batch_use_prob = 0`) aborts. -/
theorem C1_pooled_average_witness :
    PooledAverage [3] [2] =
      .ok (([(3 : ℚ)] : List ℚ).sum / ((([2] : List ℕ).sum : ℕ) : ℚ)) ∧
    PooledAverage [5] [0] = .error ("ZeroDivisionError") ∧
    runEpoch exCfg0 1 1 0 (initialRunState exCfg0) =
      .error ("ZeroDivisionError") := by
  have hphase : trainPhase exCfg0 1 1 0 = .ok ⟨[0], [0], [0]⟩ := by
    norm_num [trainPhase, exCfg0, exCfg, List.enum, List.enumFrom,
      processTrainBatch, DataBatchToVariables, headE, consumeNet,
      List.foldlM, List.range_succ, Bind.bind, Except.bind, pure,
      Except.pure]
  exact ⟨(C1_pooled_average [3] [2]).1 (by norm_num),
    (C1_pooled_average [5] [0]).2.1 (by norm_num),
    (C1_pooled_average [] []).2.2 exCfg0 1 1 0 (initialRunState exCfg0)
      ⟨[0], [0], [0]⟩ hphase (by norm_num)⟩

/-- The enumerated batch sizes are the loader's batch sizes. -/
theorem enum_map_headD (loader : List (List ℕ)) :
    loader.enum.map (fun p => p.2.headD 0) =
      loader.map (fun b => b.headD 0) := by
  rw [show (fun p : ℕ × List ℕ => p.2.headD 0) =
      ((fun b : List ℕ => b.headD 0) ∘ Prod.snd) from rfl, ← List.map_map,
    List.enum_map_snd]

/-- C2: with `batch_use_prob = 0` (and uniform samples in [0, 1)) no
net ever takes a gradient step or accumulates a training example, and
every net's per-epoch average training loss is infinity; with
`batch_use_prob = 1` every net consumes every training batch, so every
net's accumulated example count is the total example count of the
training data source (and its step count is the batch count). -/
theorem C2_batch_use_prob (cfg : TrainConfig) (ni nl : ℕ)
    (hwf : ∀ b ∈ cfg.train_loader, b.length = ni + nl + 1)
    (hrand : ∀ e j i, 0 ≤ cfg.rand e j i ∧ cfg.rand e j i < 1) :
    (cfg.batch_use_prob = 0 → ∀ e, ∃ acc,
      trainPhase cfg ni nl e = .ok acc ∧
      acc.grad_steps = List.replicate cfg.nets.length 0 ∧
      acc.train_examples_per_net = List.replicate cfg.nets.length 0 ∧
      AverageLosses acc.running_losses acc.train_examples_per_net =
        List.replicate cfg.nets.length PyFloat.inf) ∧
    (cfg.batch_use_prob = 1 → 0 < ni → ∀ e, ∃ acc,
      trainPhase cfg ni nl e = .ok acc ∧
      acc.train_examples_per_net =
        List.replicate cfg.nets.length (totalExamples cfg.train_loader) ∧
      acc.grad_steps =
        List.replicate cfg.nets.length cfg.train_loader.length) := by
  constructor
  · intro hp e
    have hcond : ∀ j i, ¬ (cfg.rand e j i < cfg.batch_use_prob) := by
      intro j i hlt
      rw [hp] at hlt
      exact absurd (lt_of_le_of_lt (hrand e j i).1 hlt) (lt_irrefl 0)
    have hphase := trainPhase_ok cfg ni nl e hwf (Or.inr hcond)
    refine ⟨_, hphase, ?_, ?_, ?_⟩
    · have hc := trainFold_steps cfg e cfg.train_loader.enum
        ⟨List.replicate cfg.nets.length 0,
         List.replicate cfg.nets.length 0,
         List.replicate cfg.nets.length 0⟩
      refine eq_replicate_of_getElem _ _ _ (by rw [hc.1]; simp) ?_
      intro i hi
      rw [hc.2 i hi]
      have hnil : cfg.train_loader.enum.filter
          (fun q => decide (cfg.rand e q.1 i < cfg.batch_use_prob)) = [] := by
        rw [List.filter_eq_nil_iff]
        intro q _
        simp only [decide_eq_true_eq]
        exact hcond q.1 i
      simp [consumedSteps, hnil, List.getElem?_replicate, hi]
    · have hc := trainFold_examples cfg e cfg.train_loader.enum
        ⟨List.replicate cfg.nets.length 0,
         List.replicate cfg.nets.length 0,
         List.replicate cfg.nets.length 0⟩
      refine eq_replicate_of_getElem _ _ _ (by rw [hc.1]; simp) ?_
      intro i hi
      rw [hc.2 i hi]
      have hnil : cfg.train_loader.enum.filter
          (fun q => decide (cfg.rand e q.1 i < cfg.batch_use_prob)) = [] := by
        rw [List.filter_eq_nil_iff]
        intro q _
        simp only [decide_eq_true_eq]
        exact hcond q.1 i
      simp [consumedExamples, hnil, List.getElem?_replicate, hi]
    · have hcL := trainFold_losses cfg e cfg.train_loader.enum
        ⟨List.replicate cfg.nets.length 0,
         List.replicate cfg.nets.length 0,
         List.replicate cfg.nets.length 0⟩
      have hcE := trainFold_examples cfg e cfg.train_loader.enum
        ⟨List.replicate cfg.nets.length 0,
         List.replicate cfg.nets.length 0,
         List.replicate cfg.nets.length 0⟩
      have hlosses : (cfg.train_loader.enum.foldl (batchStepT cfg e)
          ⟨List.replicate cfg.nets.length 0,
           List.replicate cfg.nets.length 0,
           List.replicate cfg.nets.length 0⟩).running_losses =
          List.replicate cfg.nets.length 0 := by
        refine eq_replicate_of_getElem _ _ _ (by rw [hcL.1]; simp) ?_
        intro i hi
        rw [hcL.2 i hi]
        have hnil : cfg.train_loader.enum.filter
            (fun q => decide (cfg.rand e q.1 i < cfg.batch_use_prob)) =
            [] := by
          rw [List.filter_eq_nil_iff]
          intro q _
          simp only [decide_eq_true_eq]
          exact hcond q.1 i
        simp [consumedLoss, hnil, List.getElem?_replicate, hi]
      have hexamples : (cfg.train_loader.enum.foldl (batchStepT cfg e)
          ⟨List.replicate cfg.nets.length 0,
           List.replicate cfg.nets.length 0,
           List.replicate cfg.nets.length 0⟩).train_examples_per_net =
          List.replicate cfg.nets.length 0 := by
        refine eq_replicate_of_getElem _ _ _ (by rw [hcE.1]; simp) ?_
        intro i hi
        rw [hcE.2 i hi]
        have hnil : cfg.train_loader.enum.filter
            (fun q => decide (cfg.rand e q.1 i < cfg.batch_use_prob)) =
            [] := by
          rw [List.filter_eq_nil_iff]
          intro q _
          simp only [decide_eq_true_eq]
          exact hcond q.1 i
        simp [consumedExamples, hnil, List.getElem?_replicate, hi]
      rw [hlosses, hexamples, AverageLosses_replicate_zero]
  · intro hp hni e
    have hcond : ∀ j i, decide (cfg.rand e j i < cfg.batch_use_prob) =
        true := by
      intro j i
      rw [hp]
      simp only [decide_eq_true_eq]
      exact (hrand e j i).2
    have hphase := trainPhase_ok cfg ni nl e hwf (Or.inl hni)
    have hfull : ∀ i, cfg.train_loader.enum.filter
        (fun q => decide (cfg.rand e q.1 i < cfg.batch_use_prob)) =
        cfg.train_loader.enum := by
      intro i
      rw [List.filter_eq_self]
      intro q _
      exact hcond q.1 i
    refine ⟨_, hphase, ?_, ?_⟩
    · have hc := trainFold_examples cfg e cfg.train_loader.enum
        ⟨List.replicate cfg.nets.length 0,
         List.replicate cfg.nets.length 0,
         List.replicate cfg.nets.length 0⟩
      refine eq_replicate_of_getElem _ _ _ (by rw [hc.1]; simp) ?_
      intro i hi
      rw [hc.2 i hi]
      have hsum : consumedExamples cfg e i cfg.train_loader.enum =
          totalExamples cfg.train_loader := by
        unfold consumedExamples totalExamples
        rw [hfull i, enum_map_headD]
      simp [hsum, List.getElem?_replicate, hi]
    · have hc := trainFold_steps cfg e cfg.train_loader.enum
        ⟨List.replicate cfg.nets.length 0,
         List.replicate cfg.nets.length 0,
         List.replicate cfg.nets.length 0⟩
      refine eq_replicate_of_getElem _ _ _ (by rw [hc.1]; simp) ?_
      intro i hi
      rw [hc.2 i hi]
      have hsum : consumedSteps cfg e i cfg.train_loader.enum =
          cfg.train_loader.length := by
        unfold consumedSteps
        rw [hfull i, List.enum_length]
      simp [hsum, List.getElem?_replicate, hi]

/-- Witness for C2: the example configuration with `batch_use_prob = 0`
trains nothing in epoch 0, and with `batch_use_prob = 1` it consumes
every batch. -/
theorem C2_batch_use_prob_witness :
    (∃ acc, trainPhase exCfg0 1 1 0 = .ok acc ∧
      acc.grad_steps = List.replicate exCfg0.nets.length 0 ∧
      acc.train_examples_per_net = List.replicate exCfg0.nets.length 0 ∧
      AverageLosses acc.running_losses acc.train_examples_per_net =
        List.replicate exCfg0.nets.length PyFloat.inf) ∧
    (∃ acc, trainPhase exCfg 1 1 0 = .ok acc ∧
      acc.train_examples_per_net =
        List.replicate exCfg.nets.length (totalExamples exCfg.train_loader) ∧
      acc.grad_steps =
        List.replicate exCfg.nets.length exCfg.train_loader.length) := by
  constructor
  · exact (C2_batch_use_prob exCfg0 1 1 (by decide)
      (fun _ _ _ => ⟨le_refl 0, by norm_num [exCfg0, exCfg]⟩)).1 rfl 0
  · exact (C2_batch_use_prob exCfg 1 1 (by decide)
      (fun _ _ _ => ⟨le_refl 0, by norm_num [exCfg]⟩)).2 rfl (by decide) 0

/-- C8: in every epoch's validation phase every net is switched to
evaluation mode before the pass and back to train mode after it, and in
between every net evaluates every validation batch exactly once, in
batch order, accumulating into accumulators that start from zero that
epoch (the count hits the full data-source total and the loss total is
exactly this epoch's sum — no carry-over, no sub-sampling). -/
theorem C8_validation_pass (cfg : TrainConfig) (ni nl e : ℕ)
    (hwf : ∀ b ∈ cfg.val_loader, b.length = ni + nl + 1) (hni : 0 < ni) :
    ∃ v, valPhase cfg ni nl e = .ok v ∧
      v.validation_examples =
        List.replicate cfg.nets.length (totalExamples cfg.val_loader) ∧
      (∀ i, i < cfg.nets.length →
        v.validation_total_losses[i]? =
          some (valLossTotal cfg e i cfg.val_loader.enum)) ∧
      epochValTrace cfg ni nl e = .ok
        ((List.range cfg.nets.length).map TraceEvent.setEval ++ v.trace ++
         (List.range cfg.nets.length).map TraceEvent.setTrain) ∧
      (∀ i, i < cfg.nets.length →
        ((List.range cfg.nets.length).map TraceEvent.setEval ++ v.trace ++
         (List.range cfg.nets.length).map TraceEvent.setTrain).filter
            (concernsNet i) =
          TraceEvent.setEval i ::
            ((List.range cfg.val_loader.length).map
              (fun j => TraceEvent.valEval i j) ++
             [TraceEvent.setTrain i])) := by
  have hphase := valPhase_ok cfg ni nl e hwf hni
  refine ⟨_, hphase, ?_, ?_, ?_, ?_⟩
  · have hc := valFold_examples cfg e cfg.val_loader.enum
      ⟨List.replicate cfg.nets.length 0,
       List.replicate cfg.nets.length 0, []⟩
    refine eq_replicate_of_getElem _ _ _ (by rw [hc.1]; simp) ?_
    intro i hi
    rw [hc.2 i hi]
    have htot : valExamplesOf cfg.val_loader.enum =
        totalExamples cfg.val_loader := by
      unfold valExamplesOf totalExamples
      rw [enum_map_headD]
    simp [htot, List.getElem?_replicate, hi]
  · intro i hi
    have hc := valFold_losses cfg e cfg.val_loader.enum
      ⟨List.replicate cfg.nets.length 0,
       List.replicate cfg.nets.length 0, []⟩
    rw [hc.2 i hi]
    simp [List.getElem?_replicate, hi]
  · unfold epochValTrace
    rw [hphase]
    simp only [exceptOkBind]
    rfl
  · intro i hi
    have htr := valFold_trace cfg e cfg.val_loader.enum
      ⟨List.replicate cfg.nets.length 0,
       List.replicate cfg.nets.length 0, []⟩
    rw [htr, List.nil_append, List.filter_append, List.filter_append,
      List.filter_map, List.filter_map]
    have h1 : (concernsNet i ∘ TraceEvent.setEval) = fun k => k == i := rfl
    have h2 : (concernsNet i ∘ TraceEvent.setTrain) = fun k => k == i := rfl
    rw [h1, h2, range_filter_beq i cfg.nets.length hi,
      filter_flatMap_nets cfg.nets.length i hi]
    have h3 : cfg.val_loader.enum.map
        (fun p => TraceEvent.valEval i p.1) =
        (List.range cfg.val_loader.length).map
          (fun j => TraceEvent.valEval i j) := by
      rw [show (fun p : ℕ × List ℕ => TraceEvent.valEval i p.1) =
          ((fun j => TraceEvent.valEval i j) ∘ Prod.fst) from rfl,
        ← List.map_map, List.enum_map_fst]
    rw [h3]
    rfl

/-- Witness for C8: the validation pass of the example configuration. -/
theorem C8_validation_pass_witness :
    ∃ v, valPhase exCfg 1 1 0 = .ok v ∧
      v.validation_examples =
        List.replicate exCfg.nets.length (totalExamples exCfg.val_loader) ∧
      (∀ i, i < exCfg.nets.length →
        v.validation_total_losses[i]? =
          some (valLossTotal exCfg 0 i exCfg.val_loader.enum)) ∧
      epochValTrace exCfg 1 1 0 = .ok
        ((List.range exCfg.nets.length).map TraceEvent.setEval ++ v.trace ++
         (List.range exCfg.nets.length).map TraceEvent.setTrain) ∧
      (∀ i, i < exCfg.nets.length →
        ((List.range exCfg.nets.length).map TraceEvent.setEval ++ v.trace ++
         (List.range exCfg.nets.length).map TraceEvent.setTrain).filter
            (concernsNet i) =
          TraceEvent.setEval i ::
            ((List.range exCfg.val_loader.length).map
              (fun j => TraceEvent.valEval i j) ++
             [TraceEvent.setTrain i])) :=
  C8_validation_pass exCfg 1 1 0 (by decide) (by decide)

/-- C4: the per-net checkpoint minima start at infinity, never increase
over an epoch, and a `best` checkpoint for net `i` is written in an
epoch exactly when that epoch's per-net average validation loss is
strictly below the running minimum at the start of the epoch. -/
theorem C4_checkpoint_monotonic (cfg : TrainConfig) (ni nl e : ℕ)
    (st st' : RunState) (h : runEpoch cfg ni nl e st = .ok st') :
    (initialRunState cfg).min_validation_losses =
      List.replicate cfg.nets.length PyFloat.inf ∧
    (∀ i, i < cfg.nets.length →
      PyFloat.le (st'.min_validation_losses.getD i .inf)
        (st.min_validation_losses.getD i .inf) = true) ∧
    ∃ v, valPhase cfg ni nl e = .ok v ∧
      ∀ i, i < cfg.nets.length →
        ((SaveEvent.mk i CkptKind.best ∈ st'.saves.drop st.saves.length) ↔
          PyFloat.lt ((AverageLosses v.validation_total_losses
              v.validation_examples).getD i .inf)
            (st.min_validation_losses.getD i .inf) = true) := by
  rcases runEpoch_state cfg ni nl e st st' h with ⟨v, hv, hmins, hsaves⟩
  refine ⟨rfl, ?_, v, hv, ?_⟩
  · intro i hi
    rw [hmins, getD_map_range _ _ _ _ hi]
    exact pyFloat_min_le _ _
  · intro i hi
    rw [hsaves, List.drop_left]
    have hmem := mem_best_filterMap cfg.nets.length i
      (fun k => PyFloat.lt ((AverageLosses v.validation_total_losses
          v.validation_examples).getD k .inf)
        (st.min_validation_losses.getD k .inf))
    constructor
    · intro hm
      exact (hmem.mp hm).2
    · intro hc
      exact hmem.mpr ⟨hi, hc⟩

/-- The single epoch of the example configuration, evaluated. -/
theorem exCfg_runEpoch :
    runEpoch exCfg 1 1 0 (initialRunState exCfg) = .ok
      ⟨[.fin 1], .fin 1, [⟨1, 1, 1, 4⟩], [⟨0, .best⟩]⟩ := by
  rw [runEpoch_ok_iff]
  refine ⟨⟨[4], [4], [1]⟩, 4, 1, ⟨[2], [2], [.valEval 0 0]⟩, 1,
    ?_, ?_, ?_, ?_, ?_, ?_⟩
  · norm_num [trainPhase, exCfg, List.enum, List.enumFrom,
      processTrainBatch, DataBatchToVariables, headE, consumeNet,
      List.foldlM, List.range_succ, Bind.bind, Except.bind, pure,
      Except.pure]
  · norm_num [pyDiv, exCfg]
  · norm_num [PooledAverage, pyDiv]
  · norm_num [valPhase, exCfg, List.enum, List.enumFrom,
      processValBatch, DataBatchToVariables, headE, evalNet,
      List.foldlM, List.range_succ, Bind.bind, Except.bind, pure,
      Except.pure]
  · norm_num [PooledAverage, pyDiv]
  · norm_num [epochUpdate, initialRunState, exCfg, AverageLosses,
      PyFloat.lt, List.range_succ, List.filterMap_cons, List.getD]

/-- The whole example run, evaluated. -/
theorem exCfg_run :
    TrainModelsRun exCfg = .ok
      ⟨[.fin 1], .fin 1, [⟨1, 1, 1, 4⟩], [⟨0, .best⟩, ⟨0, .last⟩]⟩ := by
  rw [TrainModelsRun_ok_iff]
  refine ⟨exNet, ⟨1⟩,
    ⟨[.fin 1], .fin 1, [⟨1, 1, 1, 4⟩], [⟨0, .best⟩]⟩, rfl, rfl, ?_, ?_⟩
  · rw [show exNet.input_names.length = 1 from rfl,
      show exNet.label_names.length = 1 from rfl,
      show List.range (1 : ℕ) = [0] from rfl, List.foldlM_cons,
      exCfg_runEpoch]
    rfl
  · rfl

/-- Witness for C4: one successful epoch of the example configuration,
taking the minima from infinity to the epoch's validation average. -/
theorem C4_checkpoint_monotonic_witness :
    (initialRunState exCfg).min_validation_losses =
      List.replicate exCfg.nets.length PyFloat.inf ∧
    (∀ i, i < exCfg.nets.length →
      PyFloat.le (((⟨[.fin 1], .fin 1, [⟨1, 1, 1, 4⟩],
            [⟨0, .best⟩]⟩ : RunState)).min_validation_losses.getD i .inf)
        ((initialRunState exCfg).min_validation_losses.getD i .inf) =
        true) ∧
    ∃ v, valPhase exCfg 1 1 0 = .ok v ∧
      ∀ i, i < exCfg.nets.length →
        ((SaveEvent.mk i CkptKind.best ∈
            ((⟨[.fin 1], .fin 1, [⟨1, 1, 1, 4⟩],
              [⟨0, .best⟩]⟩ : RunState)).saves.drop
              (initialRunState exCfg).saves.length) ↔
          PyFloat.lt ((AverageLosses v.validation_total_losses
              v.validation_examples).getD i .inf)
            ((initialRunState exCfg).min_validation_losses.getD i .inf) =
            true) := by
  exact C4_checkpoint_monotonic exCfg 1 1 0 (initialRunState exCfg) _
    exCfg_runEpoch

/-- C5: a successful run writes exactly one `last` checkpoint per net
(at the path `{out_prefix}-{i}-last.pth`), all of them after every
`best` checkpoint of every epoch, regardless of how many `best`
checkpoints (zero or more) each net received. -/
theorem C5_last_checkpoint (cfg : TrainConfig) (r : RunState)
    (h : TrainModelsRun cfg = .ok r) :
    ∃ pre, r.saves = pre ++ (List.range cfg.nets.length).map
        (fun i => SaveEvent.mk i CkptKind.last) ∧
      (∀ ev ∈ pre, ev.kind = CkptKind.best) ∧
      (∀ i, (r.saves.filter (fun ev =>
          decide (ev.netIdx = i ∧ ev.kind = CkptKind.last))).length =
        if i < cfg.nets.length then 1 else 0) ∧
      (∀ i, savePath cfg.pathStem (SaveEvent.mk i CkptKind.last) =
        cfg.pathStem ++ "-" ++ toString i ++ "-last.pth") := by
  rcases (TrainModelsRun_ok_iff cfg r).mp h with
    ⟨net0, settings0, final, hn, hs, hfold, hr⟩
  have hbest : ∀ ev ∈ final.saves, ev.kind = CkptKind.best := by
    refine foldlM_ok_preserves
      (fun s => ∀ ev ∈ s.saves, ev.kind = CkptKind.best) _
      (List.range settings0.epochs) ?_ (initialRunState cfg) final ?_ hfold
    · intro b a b' _ hstep hPb
      exact runEpoch_saves_best cfg net0.input_names.length
        net0.label_names.length a b b' hstep hPb
    · intro ev hev
      simp [initialRunState] at hev
  have hrs : r.saves = final.saves ++ (List.range cfg.nets.length).map
      (fun k => SaveEvent.mk k CkptKind.last) := by
    rw [hr]
  refine ⟨final.saves, hrs, hbest, ?_, fun i => rfl⟩
  intro i
  rw [hrs, List.filter_append]
  have h1 : final.saves.filter (fun ev =>
      decide (ev.netIdx = i ∧ ev.kind = CkptKind.last)) = [] := by
    rw [List.filter_eq_nil_iff]
    intro ev hev
    have hk := hbest ev hev
    simp [hk]
  rw [h1, List.nil_append, List.filter_map]
  have h2 : ((fun ev => decide (ev.netIdx = i ∧ ev.kind = CkptKind.last)) ∘
      (fun k => SaveEvent.mk k CkptKind.last)) = fun k => k == i := by
    funext k
    simp
    by_cases hk : k = i <;> simp [hk]
  rw [h2]
  by_cases hi : i < cfg.nets.length
  · rw [range_filter_beq i _ hi, if_pos hi]
    rfl
  · rw [range_filter_beq_none i _ hi, if_neg hi]
    rfl

/-- Witness for C5: the example run saves one `best` and then exactly
one `last` checkpoint for its single net. -/
theorem C5_last_checkpoint_witness :
    ∃ pre, ((⟨[.fin 1], .fin 1, [⟨1, 1, 1, 4⟩],
        [⟨0, .best⟩, ⟨0, .last⟩]⟩ : RunState)).saves =
        pre ++ (List.range exCfg.nets.length).map
          (fun i => SaveEvent.mk i CkptKind.last) ∧
      (∀ ev ∈ pre, ev.kind = CkptKind.best) ∧
      (∀ i, (((⟨[.fin 1], .fin 1, [⟨1, 1, 1, 4⟩],
          [⟨0, .best⟩, ⟨0, .last⟩]⟩ : RunState)).saves.filter (fun ev =>
          decide (ev.netIdx = i ∧ ev.kind = CkptKind.last))).length =
        if i < exCfg.nets.length then 1 else 0) ∧
      (∀ i, savePath exCfg.pathStem (SaveEvent.mk i CkptKind.last) =
        exCfg.pathStem ++ "-" ++ toString i ++ "-last.pth") :=
  C5_last_checkpoint exCfg _ exCfg_run

/-- Replacing the nets after the first by any same-count nets (whose
name lists may differ arbitrarily) leaves the run unchanged: the loop
reads only `len(nets)` and the first net's name lists. -/
theorem TrainModelsRun_nets_congr (cfg : TrainConfig) (n0 : Net)
    (nrest nrest' : List Net) (hn : cfg.nets = n0 :: nrest)
    (hlen : nrest'.length = nrest.length) :
    TrainModelsRun { cfg with nets := n0 :: nrest' } =
      TrainModelsRun cfg := by
  have hN : ({ cfg with nets := n0 :: nrest' } : TrainConfig).nets.length =
      cfg.nets.length := by
    show (n0 :: nrest').length = cfg.nets.length
    rw [hn]
    simp [hlen]
  have hpt : ∀ ni nl e j b acc,
      processTrainBatch { cfg with nets := n0 :: nrest' } ni nl e j b acc =
        processTrainBatch cfg ni nl e j b acc := by
    intro ni nl e j b acc
    unfold processTrainBatch
    rw [hN]
    rfl
  have hpv : ∀ ni nl e j b acc,
      processValBatch { cfg with nets := n0 :: nrest' } ni nl e j b acc =
        processValBatch cfg ni nl e j b acc := by
    intro ni nl e j b acc
    unfold processValBatch
    rw [hN]
    rfl
  have htp : ∀ ni nl e,
      trainPhase { cfg with nets := n0 :: nrest' } ni nl e =
        trainPhase cfg ni nl e := by
    intro ni nl e
    unfold trainPhase
    rw [hN]
    simp only [hpt]
  have hvp : ∀ ni nl e,
      valPhase { cfg with nets := n0 :: nrest' } ni nl e =
        valPhase cfg ni nl e := by
    intro ni nl e
    unfold valPhase
    rw [hN]
    simp only [hpv]
  have hre : ∀ ni nl e st,
      runEpoch { cfg with nets := n0 :: nrest' } ni nl e st =
        runEpoch cfg ni nl e st := by
    intro ni nl e st
    unfold runEpoch
    simp only [htp, hvp, hN]
  unfold TrainModelsRun
  simp only [hre, hN, initialRunState]
  rw [hn]
  rfl

/-- C9: a successful run performs exactly `train_settings[0].epochs`
epochs — only the first settings entry's epoch count (and only the
first net's input-name and label-name lists) is consulted — and the
returned training log holds exactly one metrics record per epoch,
appended in epoch order. -/
theorem C9_epoch_count (cfg : TrainConfig) (s0 : TrainSettings)
    (rest : List TrainSettings) (r : RunState)
    (hs : cfg.train_settings = s0 :: rest)
    (h : TrainModelsRun cfg = .ok r) :
    r.train_log.length = s0.epochs ∧
    (∃ n0 nrest, cfg.nets = n0 :: nrest ∧
      ∀ e, e < s0.epochs → ∃ m,
        epochMetricsOf cfg n0.input_names.length n0.label_names.length e =
          .ok m ∧ r.train_log[e]? = some m) ∧
    (∀ rest' : List TrainSettings, rest'.length = rest.length →
      TrainModelsRun { cfg with train_settings := s0 :: rest' } =
        TrainModelsRun cfg) ∧
    (∀ (n0 : Net) (nrest nrest' : List Net), cfg.nets = n0 :: nrest →
      nrest'.length = nrest.length →
      TrainModelsRun { cfg with nets := n0 :: nrest' } =
        TrainModelsRun cfg) := by
  rcases (TrainModelsRun_ok_iff cfg r).mp h with
    ⟨net0, settings0, final, hn, hsett, hfold, hr⟩
  have hs0 : settings0 = s0 := by
    rw [hs] at hsett
    exact (Except.ok.inj hsett).symm
  subst hs0
  obtain ⟨nrest0, hnets⟩ : ∃ nrest0, cfg.nets = net0 :: nrest0 := by
    cases hcn : cfg.nets with
    | nil =>
        rw [hcn] at hn
        cases hn
    | cons a t =>
        rw [hcn] at hn
        exact ⟨t, by rw [Except.ok.inj hn]⟩
  have hlog : r.train_log = final.train_log := by
    rw [hr]
  rcases runFold_log cfg net0.input_names.length net0.label_names.length
      (List.range settings0.epochs) (initialRunState cfg) final hfold with
    ⟨ms, hms, hmslen, hidx⟩
  have hfinlog : final.train_log = ms := by
    rw [hms]
    rfl
  refine ⟨?_, ?_, ?_, ?_⟩
  · rw [hlog, hfinlog, hmslen, List.length_range]
  · refine ⟨net0, nrest0, hnets, ?_⟩
    intro e he
    rcases hidx e (by rw [List.length_range]; exact he) with ⟨m, hm, hmet⟩
    have hgd : (List.range settings0.epochs).getD e 0 = e := by
      rw [List.getD_eq_getElem?_getD, List.getElem?_range he]
      rfl
    rw [hgd] at hmet
    exact ⟨m, hmet, by rw [hlog, hfinlog]; exact hm⟩
  · intro rest' hlen'
    unfold TrainModelsRun
    rw [hs]
    rfl
  · intro n0 nrest nrest' hcn hlen'
    exact TrainModelsRun_nets_congr cfg n0 nrest nrest' hcn hlen'

/-- Witness for C9: the example run performs its single configured
epoch and logs exactly one record. -/
theorem C9_epoch_count_witness :
    ((⟨[.fin 1], .fin 1, [⟨1, 1, 1, 4⟩],
        [⟨0, .best⟩, ⟨0, .last⟩]⟩ : RunState)).train_log.length =
      (⟨1⟩ : TrainSettings).epochs ∧
    (∃ n0 nrest, exCfg.nets = n0 :: nrest ∧
      ∀ e, e < (⟨1⟩ : TrainSettings).epochs → ∃ m,
        epochMetricsOf exCfg n0.input_names.length n0.label_names.length
          e = .ok m ∧
        ((⟨[.fin 1], .fin 1, [⟨1, 1, 1, 4⟩],
          [⟨0, .best⟩, ⟨0, .last⟩]⟩ : RunState)).train_log[e]? = some m) ∧
    (∀ rest' : List TrainSettings, rest'.length = ([] : List TrainSettings).length →
      TrainModelsRun { exCfg with train_settings := ⟨1⟩ :: rest' } =
        TrainModelsRun exCfg) ∧
    (∀ (n0 : Net) (nrest nrest' : List Net), exCfg.nets = n0 :: nrest →
      nrest'.length = nrest.length →
      TrainModelsRun { exCfg with nets := n0 :: nrest' } =
        TrainModelsRun exCfg) :=
  C9_epoch_count exCfg ⟨1⟩ [] _ rfl exCfg_run
